import Mathlib

/-!
# Verification of the ueink frame-buffer / e-ink driver stack

Shallow embedding of the repository's Python sources:

* `src/framebuf/fb_gs4_hmsb.py`, `fb_mhlsb.py`, `fb_mvlsb.py` — packed pixel
  formats (get/set/fill_rect);
* `src/framebuf/base.py` — `FrameBuffer.pixel`, `blit`, `scroll`, `ellipse`,
  `text`;
* `src/ueink/core/transform.py` — `Transform1B._fb2raw`,
  `Transform2B._fb2raw_com` (raw conversion with rotation);
* `src/ueink/core/base.py` — `IEpd._wait4ready`, `_flush_raw`,
  `_flush_raw_async` (busy-wait and flush guard).

A Python `bytearray` is modelled as a total function `Nat → Nat` together with
the invariant that every byte is `< 256`; byte equality of two buffers is
function equality (both sides are built from the all-zero buffer by the same
kind of writes).  Fallible Python code (expressions that would raise
`TypeError` on a `None` pixel read) is modelled with `Option`.
-/

namespace UEink

/-- A mutable byte region (`bytearray`): byte index to byte value. -/
def Buf : Type := Nat → Nat

/-- The all-zero buffer, `bytearray(n)`. -/
def zeroBuf : Buf := fun _ => 0

/-- Write one byte, `buf[i] = v`. -/
def bufSet (b : Buf) (i v : Nat) : Buf := fun j => if j = i then v else b j

/-- Stride alignment from `FrameBuffer.__init__`:
`((width if stride is None else stride) + align_factor) & ~align_factor`,
with `align_factor + 1` a power of two, i.e. rounding up to the next
multiple of `align_factor + 1`. -/
def alignStride (w align : Nat) : Nat := (w + align) / (align + 1) * (align + 1)

/-! ## fb_gs4_hmsb.py (4-bit paired-nibble grayscale) -/

/-- `fb_gs4_hmsb._setpixel`: `color = col & 0x0F` (two's-complement masking of
a Python int, i.e. `col % 16`); even `x` goes to the high nibble, odd `x` to
the low nibble of byte `(x + y*stride) // 2`. -/
def gs4Set (stride : Nat) (b : Buf) (x y : Nat) (col : Int) : Buf :=
  let color : Nat := (col % 16).toNat
  let offset := (x + y * stride) / 2
  if x % 2 = 1 then
    bufSet b offset ((color &&& 15) ||| (b offset &&& 0xF0))
  else
    bufSet b offset ((color <<< 4) ||| (b offset &&& 0x0F))

/-- `fb_gs4_hmsb._getpixel`. -/
def gs4Get (stride : Nat) (b : Buf) (x y : Nat) : Nat :=
  if x % 2 = 1 then b ((x + y * stride) / 2) &&& 0x0F
  else b ((x + y * stride) / 2) >>> 4

/-! ## fb_mhlsb.py (1-bit, horizontal, MSB-first within a byte) -/

/-- `fb_mhlsb._setpixel`: stores the bit `(col != 0)` at bit position
`7 - (x & 7)` of byte `(x + y*stride) >> 3`.  `buf[i] & ~(1 << o)` on a byte
is embedded as `&&& (255 ^^^ (1 <<< o))` (bytearray cells are `< 256`). -/
def mhlsbSet (stride : Nat) (b : Buf) (x y : Nat) (col : Int) : Buf :=
  let index := (x + y * stride) >>> 3
  let offset := 7 - (x &&& 7)
  let bit : Nat := if col ≠ 0 then 1 else 0
  bufSet b index ((b index &&& (255 ^^^ (1 <<< offset))) ||| (bit <<< offset))

/-- `fb_mhlsb._getpixel`. -/
def mhlsbGet (stride : Nat) (b : Buf) (x y : Nat) : Nat :=
  (b ((x + y * stride) >>> 3) >>> (7 - (x &&& 7))) &&& 0x01

/-! ## fb_mvlsb.py (1-bit, vertical byte columns) -/

/-- `fb_mvlsb._getpixel`: `(buf[(y >> 3)*stride + x] >> (y & 7)) & 1`. -/
def mvlsbGet (stride : Nat) (b : Buf) (x y : Nat) : Nat :=
  (b ((y >>> 3) * stride + x) >>> (y &&& 7)) &&& 0x01

/-- One inner-row pass of `fb_mvlsb._fill_rect`: `w` writes starting at
byte `o = (y >> 3)*stride + x`, bit `y & 7`, advancing `o` by one. -/
def mvlsbFillRow (stride : Nat) (b : Buf) (x y w : Nat) (col : Int) : Buf :=
  let offset := y &&& 7
  let bit : Nat := if col ≠ 0 then 1 else 0
  (List.range w).foldl
    (fun bc i =>
      let o := (y >>> 3) * stride + x + i
      bufSet bc o ((bc o &&& (255 ^^^ (1 <<< offset))) ||| (bit <<< offset)))
    b

/-- `fb_mvlsb._fill_rect` as written in the source: the outer loop runs `h`
times, but its final statement `++y` is a Python no-op (double unary plus), so
`y` never advances and every pass rewrites the same row. -/
def mvlsbFillRect (stride : Nat) (b : Buf) (x y w h : Nat) (col : Int) : Buf :=
  (List.range h).foldl (fun bc _ => mvlsbFillRow stride bc x y w col) b

/-! ## FrameBuffer.pixel (base.py) -/

/-- `FrameBuffer.pixel(x, y, col)` from `base.py`, parameterised by the
format's `_getpixel`/`_setpixel` (attached by the format decorator).  Returns
the possibly-updated buffer and the value returned by the Python method
(`None` is `none`).  Out-of-bounds coordinates fall through and return
`None`; in bounds, a negative `col` reads, otherwise it writes. -/
def pyPixel (w h : Nat) (getp : Buf → Nat → Nat → Nat)
    (setp : Buf → Nat → Nat → Int → Buf)
    (b : Buf) (x y col : Int) : Buf × Option Nat :=
  if 0 ≤ x ∧ x < w ∧ 0 ≤ y ∧ y < h then
    if col < 0 then (b, some (getp b x.toNat y.toNat))
    else (setp b x.toNat y.toNat col, none)
  else (b, none)

/-- `FrameBuffer.pixel(x, y)` read path (`col = -1` default), as an
`Option`-valued read used by the transform loops. -/
def pyPixelGet (w h : Nat) (getp : Buf → Nat → Nat → Nat)
    (b : Buf) (x y : Int) : Option Nat :=
  if 0 ≤ x ∧ x < w ∧ 0 ≤ y ∧ y < h then some (getp b x.toNat y.toNat)
  else none

/-! ## Small byte-level facts used by the round-trip theorems -/

set_option maxRecDepth 8192 in
theorem gs4_low_roundtrip :
    ∀ b < 256, ∀ c < 16, ((c &&& 15) ||| (b &&& 0xF0)) &&& 0x0F = c := by
  decide

set_option maxRecDepth 8192 in
theorem gs4_high_roundtrip :
    ∀ b < 256, ∀ c < 16, ((c <<< 4) ||| (b &&& 0x0F)) >>> 4 = c := by
  decide

set_option maxRecDepth 8192 in
theorem mhlsb_bit_roundtrip :
    ∀ b < 256, ∀ o < 8, ∀ c < 2,
      (((b &&& (255 ^^^ (1 <<< o))) ||| (c <<< o)) >>> o) &&& 1 = c := by
  decide

/-! ## C2: set/get round trip -/

/-- C2 (amended): for the 4-bit format, `set(x,y,v)` then `get(x,y)` returns
`v & 0x0F` (that is, `v % 16`); for the 1-bit `MONO_HLSB` format it returns
`1` exactly when `v ≠ 0` — the value is thresholded against zero, not masked
to its low bit.  Coordinates are in bounds and the buffer is a valid
bytearray (all cells `< 256`). -/
theorem c2_roundtrip_amended (w h x y : Nat) (v : Int) (b : Buf)
    (_hx : x < w) (_hy : y < h) (hb : ∀ i, b i < 256) :
    gs4Get (alignStride w 1) (gs4Set (alignStride w 1) b x y v) x y
        = (v % 16).toNat
    ∧ mhlsbGet (alignStride w 7) (mhlsbSet (alignStride w 7) b x y v) x y
        = (if v ≠ 0 then 1 else 0) := by
  constructor
  · have hc : (v % 16).toNat < 16 := by omega
    simp only [gs4Get, gs4Set]
    by_cases hpar : x % 2 = 1
    · rw [if_pos hpar, if_pos hpar]
      simp only [bufSet]
      rw [if_pos trivial]
      exact gs4_low_roundtrip _ (hb _) _ hc
    · rw [if_neg hpar, if_neg hpar]
      simp only [bufSet]
      rw [if_pos trivial]
      exact gs4_high_roundtrip _ (hb _) _ hc
  · simp only [mhlsbGet, mhlsbSet, bufSet]
    rw [if_pos trivial]
    have ho : 7 - (x &&& 7) < 8 := by omega
    have hcv : (if v ≠ 0 then (1 : Nat) else 0) < 2 := by split <;> norm_num
    exact mhlsb_bit_roundtrip _ (hb _) _ ho _ hcv

/-- Witness for `c2_roundtrip_amended` at `w = 4`, `h = 2`, `(x, y) = (1, 0)`,
`v = 9`, on the all-zero buffer. -/
theorem c2_roundtrip_amended_witness :
    gs4Get (alignStride 4 1) (gs4Set (alignStride 4 1) zeroBuf 1 0 9) 1 0
        = ((9 : Int) % 16).toNat
    ∧ mhlsbGet (alignStride 4 7) (mhlsbSet (alignStride 4 7) zeroBuf 1 0 9) 1 0
        = (if (9 : Int) ≠ 0 then 1 else 0) :=
  c2_roundtrip_amended 4 2 1 0 9 zeroBuf (by decide) (by decide)
    (fun _ => by simp [zeroBuf])

/-- C2 counterexample: on `MONO_HLSB`, `set(0, 0, 2)` followed by `get(0, 0)`
returns `1`, while the claim predicts `v &&& 1 = 2 &&& 1 = 0`.  The stored
value is `(v != 0)`, not `v & 0x01`. -/
theorem c2_counterexample :
    mhlsbGet (alignStride 4 7) (mhlsbSet (alignStride 4 7) zeroBuf 0 0 2) 0 0 = 1
    ∧ (2 : Nat) &&& 1 = 0 := by
  constructor
  · show (bufSet zeroBuf 0 _ _ >>> _) &&& 1 = 1
    simp [mhlsbSet, bufSet, zeroBuf, alignStride]
  · decide

/-! ## C3: fill_rect versus per-pixel set -/

/-- C3 (code bug, MVLSB): filling the 1×2 rectangle at `(0,0)` with colour 1
on an 8-wide `MVLSB` buffer leaves pixel `(0, 1)` — inside the rectangle — at
`0`, because the source's `++y` never advances the row; setting the two
pixels individually would leave it at `1`.  (The `MONO_HLSB` `_fill_rect` is
broken differently: its `b += advance` reads an unbound local and raises
`NameError` for any non-empty rectangle.) -/
theorem c3_mvlsb_fill_rect_bug :
    mvlsbGet 8 (mvlsbFillRect 8 zeroBuf 0 0 1 2 1) 0 1 = 0
    ∧ mvlsbGet 8 (mvlsbFillRect 8 zeroBuf 0 0 1 2 1) 0 0 = 1 := by
  constructor
  · simp [mvlsbFillRect, mvlsbFillRow, mvlsbGet, bufSet, zeroBuf, List.range_succ]
  · simp [mvlsbFillRect, mvlsbFillRow, mvlsbGet, bufSet, zeroBuf, List.range_succ]

/-! ## C4: text bounds checking -/

/-- One glyph column of `FrameBuffer.text` (`base.py`): the inner
`while vline_data:` loop, which tests `vline_data & 1 and 0 <= y < height`
— note the check is against the column's *top* row `y`, while the plot is at
the advancing row `yy = y + k`.  A glyph byte has 8 bits, so the loop body
runs exactly for bit positions `0..7`.  Returns the list of byte offsets the
`GS4_HMSB` `_setpixel` would index (`(x + yy*stride) // 2`), recording every
buffer access the column performs. -/
def textColAccesses (w h stride : Nat) (x y : Int) (vline : Nat) : List Nat :=
  if 0 ≤ x ∧ x < w then
    ((List.range 8).filter
        (fun k => (vline >>> k) &&& 1 = 1 ∧ 0 ≤ y ∧ y < h)).map
      (fun k => (x.toNat + (y.toNat + k) * stride) / 2)
  else []

/-- C4 (code bug): on an 8×4 `GS4_HMSB` buffer (stride 8, 16 bytes), drawing
a glyph column with byte `0x02` at `(0, 3)` passes the `0 <= y < height`
check (3 < 4) but plots at row `yy = 4`, indexing buffer byte 16 — one past
the end of the 16-byte buffer.  The claim that every plotted glyph bit is
bounds-checked before the buffer is touched is false. -/
theorem c4_text_out_of_range :
    textColAccesses 8 4 (alignStride 8 1) 0 3 2 = [16] ∧ 16 ≥ (8 * 4 + 1) / 2 := by
  constructor
  · simp [textColAccesses, alignStride, List.range_succ, List.filter, List.map]
  · decide

/-! ## C10: pixel with a negative colour is a read -/

/-- C10: for any format binding and any in-bounds `(x, y)`, `pixel(x, y, col)`
with `col < 0` returns the stored pixel value and leaves the buffer
untouched; nothing is ever written through a negative colour. -/
theorem c10_pixel_negative_col_reads
    (w h : Nat) (getp : Buf → Nat → Nat → Nat)
    (setp : Buf → Nat → Nat → Int → Buf) (b : Buf) (x y col : Int)
    (hx : 0 ≤ x ∧ x < w) (hy : 0 ≤ y ∧ y < h) (hcol : col < 0) :
    pyPixel w h getp setp b x y col = (b, some (getp b x.toNat y.toNat)) := by
  unfold pyPixel
  rw [if_pos ⟨hx.1, hx.2, hy.1, hy.2⟩, if_pos hcol]

/-- Witness for `c10_pixel_negative_col_reads`: a `GS4_HMSB` 4×2 buffer at
`(1, 0)` with the default read sentinel `col = -1`. -/
theorem c10_pixel_negative_col_reads_witness :
    pyPixel 4 2 (gs4Get (alignStride 4 1)) (gs4Set (alignStride 4 1))
        zeroBuf 1 0 (-1)
      = (zeroBuf, some (gs4Get (alignStride 4 1) zeroBuf 1 0)) :=
  c10_pixel_negative_col_reads 4 2 (gs4Get (alignStride 4 1))
    (gs4Set (alignStride 4 1)) zeroBuf 1 0 (-1)
    (by constructor <;> decide) (by constructor <;> decide) (by decide)

/-! ## C7: ellipse quadrant mask

`FrameBuffer.ellipse` (base.py 139-188) runs a two-pass midpoint algorithm;
each step calls `_draw_ellipse_points` (base.py 362-378).  The embedding
records the coordinates each step would draw (the horizontal `_fill_rect`
spans, which the formats do not bounds-check, and the `_setpixel_checked`
points, which are).  The midpoint loops are `while` loops on integer state;
they are embedded with explicit fuel (for degenerate radii such as
`xradius = yradius = 0` the Python loop never terminates, so every theorem
below is stated for every fuel value, i.e. for every finite prefix of the
run). -/

/-- Pixels of `_fill_rect(x0, y0, w, 1, col)`: the row `y0`, columns
`x0 .. x0+w-1` (empty when `w ≤ 0`). -/
def espan (x0 y0 w : Int) : List (Int × Int) :=
  (List.range w.toNat).map (fun (t : Nat) => (x0 + (t : Int), y0))

/-- `FrameBuffer._setpixel_checked(x, y, col, m)`: draws iff `m` is truthy
and `(x, y)` is in bounds. -/
def setpixelChecked (w h : Nat) (x y : Int) (m : Nat) : List (Int × Int) :=
  if m ≠ 0 ∧ 0 ≤ x ∧ x < w ∧ 0 ≤ y ∧ y < h then [(x, y)] else []

/-- `FrameBuffer._draw_ellipse_points`. -/
def drawEllipsePoints (w h : Nat) (cx cy x y : Int) (mask : Nat) :
    List (Int × Int) :=
  if mask &&& 0x0F ≠ 0 then
    (if mask &&& 0x01 ≠ 0 then espan cx (cy - y) (x + 1) else []) ++
    (if mask &&& 0x02 ≠ 0 then espan (cx - x) (cy - y) (x + 1) else []) ++
    (if mask &&& 0x04 ≠ 0 then espan (cx - x) (cy + y) (x + 1) else []) ++
    (if mask &&& 0x08 ≠ 0 then espan cx (cy + y) (x + 1) else [])
  else
    setpixelChecked w h (cx + x) (cy - y) (mask &&& 0x01) ++
    setpixelChecked w h (cx - x) (cy - y) (mask &&& 0x02) ++
    setpixelChecked w h (cx - x) (cy + y) (mask &&& 0x04) ++
    setpixelChecked w h (cx + x) (cy + y) (mask &&& 0x08)

/-- First midpoint pass of `ellipse` (sweep by `y` while `|slope| < 1`).
State mirrors the Python locals. -/
def ellipseLoop1 (w h : Nat) (cx cy : Int) (mask : Nat)
    (two_asquare two_bsquare : Int) :
    Nat → Int → Int → Int → Int → Int → Int → Int → List (Int × Int)
  | 0, _, _, _, _, _, _, _ => []
  | fuel + 1, x, y, xchange, ychange, e, stoppingx, stoppingy =>
    if stoppingx ≥ stoppingy then
      drawEllipsePoints w h cx cy x y mask ++
      (let stoppingy' := stoppingy + two_asquare
       let e' := e + ychange
       let ychange' := ychange + two_asquare
       if 2 * e' + xchange > 0 then
         ellipseLoop1 w h cx cy mask two_asquare two_bsquare fuel
           (x - 1) (y + 1) (xchange + two_bsquare) ychange' (e' + xchange)
           (stoppingx - two_bsquare) stoppingy'
       else
         ellipseLoop1 w h cx cy mask two_asquare two_bsquare fuel
           x (y + 1) xchange ychange' e' stoppingx stoppingy')
    else []

/-- Second midpoint pass of `ellipse` (sweep by `x`). -/
def ellipseLoop2 (w h : Nat) (cx cy : Int) (mask : Nat)
    (two_asquare two_bsquare : Int) :
    Nat → Int → Int → Int → Int → Int → Int → Int → List (Int × Int)
  | 0, _, _, _, _, _, _, _ => []
  | fuel + 1, x, y, xchange, ychange, e, stoppingx, stoppingy =>
    if stoppingx ≤ stoppingy then
      drawEllipsePoints w h cx cy x y mask ++
      (let stoppingx' := stoppingx + two_bsquare
       let e' := e + xchange
       let xchange' := xchange + two_bsquare
       if 2 * e' + ychange > 0 then
         ellipseLoop2 w h cx cy mask two_asquare two_bsquare fuel
           (x + 1) (y - 1) xchange' (ychange + two_asquare) (e' + ychange)
           stoppingx' (stoppingy - two_asquare)
       else
         ellipseLoop2 w h cx cy mask two_asquare two_bsquare fuel
           (x + 1) y xchange' ychange e' stoppingx' stoppingy)
    else []

/-- `FrameBuffer.ellipse(cx, cy, xradius, yradius, col, fill, msk)`:
`mask = (0x0F if fill else 0) | (msk & 0x0F)`, then the two passes.  Returns
the list of coordinates drawn (colour plays no role in which pixels are
touched). -/
def ellipseWrites (fuel w h : Nat) (cx cy xradius yradius : Int)
    (fill : Bool) (msk : Nat) : List (Int × Int) :=
  let mask := (if fill then 0x0F else 0) ||| (msk &&& 0x0F)
  let two_asquare := 2 * xradius * xradius
  let two_bsquare := 2 * yradius * yradius
  ellipseLoop1 w h cx cy mask two_asquare two_bsquare fuel
      xradius 0 (yradius * yradius * (1 - 2 * xradius)) (xradius * xradius)
      0 (two_bsquare * xradius) 0
  ++ ellipseLoop2 w h cx cy mask two_asquare two_bsquare fuel
      0 yradius (yradius * yradius) (xradius * xradius * (1 - 2 * yradius))
      0 0 (two_asquare * yradius)

/-- Strict interior of quadrant `i` relative to the centre `(cx, cy)`:
quadrant 0 is upper-right (`px > cx`, `py < cy`), 1 upper-left, 2 lower-left,
3 lower-right, matching the bit assignment of `_draw_ellipse_points`. -/
def strictQuad (i : Nat) (cx cy px py : Int) : Prop :=
  if i = 0 then cx < px ∧ py < cy
  else if i = 1 then px < cx ∧ py < cy
  else if i = 2 then px < cx ∧ cy < py
  else cx < px ∧ cy < py

instance (i : Nat) (cx cy px py : Int) : Decidable (strictQuad i cx cy px py) := by
  unfold strictQuad
  infer_instance

theorem and15_bit (mask b : Nat) (hb : 15 &&& b = b) (hz : mask &&& 15 = 0) :
    mask &&& b = 0 := by
  rw [← hb, ← Nat.and_assoc, hz, Nat.zero_and]

/-- A point emitted by `_draw_ellipse_points` with `y ≥ 0` and quadrant bit
`i` of the effective mask clear is never strictly inside quadrant `i`. -/
theorem drawEllipsePoints_quad (w h : Nat) (cx cy x y : Int) (mask : Nat)
    (i : Nat) (hi : i < 4) (hy : 0 ≤ y) (hmask : mask &&& (1 <<< i) = 0) :
    ∀ p ∈ drawEllipsePoints w h cx cy x y mask,
      ¬ strictQuad i cx cy p.1 p.2 := by
  intro p hp
  have hspan : ∀ x0 y0 wi, p ∈ espan x0 y0 wi →
      p.2 = y0 ∧ x0 ≤ p.1 ∧ p.1 ≤ x0 + wi - 1 := by
    intro x0 y0 wi hmem
    unfold espan at hmem
    rw [List.mem_map] at hmem
    obtain ⟨t, ht, rfl⟩ := hmem
    rw [List.mem_range] at ht
    refine ⟨rfl, ?_, ?_⟩
    · show x0 ≤ x0 + (t : Int)
      omega
    · show x0 + (t : Int) ≤ x0 + wi - 1
      omega
  have hchk : ∀ a b m, p ∈ setpixelChecked w h a b m → m ≠ 0 := by
    intro a b m hmem
    simp only [setpixelChecked] at hmem
    split at hmem
    · rename_i hcond
      exact hcond.1
    · simp at hmem
  -- Case on which of the four emissions produced `p`, then on `i`.
  simp only [drawEllipsePoints] at hp
  split at hp
  · -- fill_rect spans
    rename_i hfb
    simp only [List.mem_append] at hp
    rcases hp with ((h1 | h2) | h3) | h4
    · -- quadrant-0 span `espan cx (cy - y) (x+1)`: columns ≥ cx, row ≤ cy
      split at h1
      · rename_i hb0
        obtain ⟨hpy, hpx, -⟩ := hspan _ _ _ h1
        rcases (by omega : i = 0 ∨ i = 1 ∨ i = 2 ∨ i = 3) with rfl | rfl | rfl | rfl
        · exact absurd (by simpa using hmask) hb0
        all_goals simp only [strictQuad] <;> norm_num <;> omega
      · simp at h1
    · -- quadrant-1 span `espan (cx - x) (cy - y) (x+1)`: columns ≤ cx, row ≤ cy
      split at h2
      · rename_i hb1
        obtain ⟨hpy, hpx, hub⟩ := hspan _ _ _ h2
        rcases (by omega : i = 0 ∨ i = 1 ∨ i = 2 ∨ i = 3) with rfl | rfl | rfl | rfl
        · simp only [strictQuad]
          norm_num
          omega
        · exact absurd (by simpa using hmask) hb1
        all_goals simp only [strictQuad] <;> norm_num <;> omega
      · simp at h2
    · -- quadrant-2 span `espan (cx - x) (cy + y) (x+1)`: columns ≤ cx, row ≥ cy
      split at h3
      · rename_i hb2
        obtain ⟨hpy, hpx, hub⟩ := hspan _ _ _ h3
        rcases (by omega : i = 0 ∨ i = 1 ∨ i = 2 ∨ i = 3) with rfl | rfl | rfl | rfl
        · simp only [strictQuad]
          norm_num
          omega
        · simp only [strictQuad]
          norm_num
          omega
        · exact absurd (by simpa using hmask) hb2
        · simp only [strictQuad]
          norm_num
          omega
      · simp at h3
    · -- quadrant-3 span `espan cx (cy + y) (x+1)`: columns ≥ cx, row ≥ cy
      split at h4
      · rename_i hb3
        obtain ⟨hpy, hpx, -⟩ := hspan _ _ _ h4
        rcases (by omega : i = 0 ∨ i = 1 ∨ i = 2 ∨ i = 3) with rfl | rfl | rfl | rfl
        · simp only [strictQuad]
          norm_num
          omega
        · simp only [strictQuad]
          norm_num
          omega
        · simp only [strictQuad]
          norm_num
          omega
        · exact absurd (by simpa using hmask) hb3
      · simp at h4
  · -- `_setpixel_checked` branch: the effective mask has all four low bits
    -- clear here, so every `mask & bit` argument is 0 and nothing is drawn.
    rename_i hz
    have hm : mask &&& 15 = 0 := by
      by_contra hc
      exact hz hc
    simp only [List.mem_append] at hp
    rcases hp with ((h1 | h2) | h3) | h4
    · exact absurd (and15_bit mask 1 (by decide) hm) (hchk _ _ _ h1)
    · exact absurd (and15_bit mask 2 (by decide) hm) (hchk _ _ _ h2)
    · exact absurd (and15_bit mask 4 (by decide) hm) (hchk _ _ _ h3)
    · exact absurd (and15_bit mask 8 (by decide) hm) (hchk _ _ _ h4)

/-- In the first midpoint pass `y` starts at 0 and only increases, so every
step's emissions satisfy the quadrant gating. -/
theorem ellipseLoop1_quad (w h : Nat) (cx cy : Int) (mask : Nat) (ta tb : Int)
    (i : Nat) (hi : i < 4) (hmask : mask &&& (1 <<< i) = 0) :
    ∀ (fuel : Nat) (x y xc yc e sx sy : Int), 0 ≤ y →
      ∀ p ∈ ellipseLoop1 w h cx cy mask ta tb fuel x y xc yc e sx sy,
        ¬ strictQuad i cx cy p.1 p.2 := by
  intro fuel
  induction fuel with
  | zero =>
    intro x y xc yc e sx sy _ p hp
    simp [ellipseLoop1] at hp
  | succ n ih =>
    intro x y xc yc e sx sy hy p hp
    simp only [ellipseLoop1] at hp
    split at hp
    · rw [List.mem_append] at hp
      rcases hp with hp | hp
      · exact drawEllipsePoints_quad w h cx cy x y mask i hi hy hmask p hp
      · split at hp
        · exact ih (x - 1) (y + 1) _ _ _ _ _ (by omega) p hp
        · exact ih x (y + 1) _ _ _ _ _ (by omega) p hp
    · simp at hp

/-- In the second midpoint pass, `stoppingy = 2·xr²·y` and `stoppingx ≥ 0`
are loop invariants, so whenever the loop condition `stoppingx ≤ stoppingy`
lets a step emit, `y` is still non-negative (for the degenerate `xr = 0`
cases the auxiliary invariants close the argument), and the quadrant gating
carries over. -/
theorem ellipseLoop2_quad (w h : Nat) (cx cy xr yr : Int)
    (hxr : 0 ≤ xr) (hyr : 0 ≤ yr) (mask : Nat)
    (i : Nat) (hi : i < 4) (hmask : mask &&& (1 <<< i) = 0) :
    ∀ (fuel : Nat) (x y xc yc e sx sy : Int),
      sy = 2 * xr * xr * y →
      0 ≤ sx →
      (xr = 0 → sx = 0 → 0 ≤ y) →
      (xr = 0 ∧ yr = 0 → e = 0 ∧ xc = 0 ∧ yc = 0) →
      ∀ p ∈ ellipseLoop2 w h cx cy mask (2 * xr * xr) (2 * yr * yr)
          fuel x y xc yc e sx sy,
        ¬ strictQuad i cx cy p.1 p.2 := by
  intro fuel
  induction fuel with
  | zero =>
    intro x y xc yc e sx sy _ _ _ _ p hp
    simp [ellipseLoop2] at hp
  | succ n ih =>
    intro x y xc yc e sx sy hsy hsx hdeg hzero p hp
    simp only [ellipseLoop2] at hp
    split at hp
    · rename_i hcond
      have hk : 0 ≤ yr * yr := mul_self_nonneg yr
      have h2k : 2 * yr * yr = 2 * (yr * yr) := by ring
      have hy : 0 ≤ y := by
        rcases eq_or_ne xr 0 with hx0 | hx0
        · subst hx0
          have : sy = 0 := by rw [hsy]; ring
          exact hdeg rfl (by omega)
        · have hta : 0 < 2 * xr * xr := by
            have h1 : 0 < xr * xr := mul_self_pos.mpr hx0
            nlinarith
          by_contra hneg
          have hyneg : y < 0 := by omega
          have : 2 * xr * xr * y < 0 := mul_neg_of_pos_of_neg hta hyneg
          omega
      rw [List.mem_append] at hp
      rcases hp with hp | hp
      · exact drawEllipsePoints_quad w h cx cy x y mask i hi hy hmask p hp
      · split at hp
        · -- step that decrements `y`
          rename_i hdec
          refine ih (x + 1) (y - 1) _ _ _ _ _ (by rw [hsy]; ring)
            (by omega) ?_ ?_ p hp
          · intro hx0 hsx0
            exfalso
            have hyr0 : yr = 0 := by
              have : yr * yr = 0 := by omega
              exact mul_self_eq_zero.mp this
            obtain ⟨he, hxc, hyc⟩ := hzero ⟨hx0, hyr0⟩
            omega
          · rintro ⟨hx0, hyr0⟩
            exfalso
            obtain ⟨he, hxc, hyc⟩ := hzero ⟨hx0, hyr0⟩
            omega
        · -- step that keeps `y`
          refine ih (x + 1) y _ _ _ _ _ hsy (by omega) ?_ ?_ p hp
          · intro hx0 hsx0
            have hyr0 : yr = 0 := by
              have : yr * yr = 0 := by omega
              exact mul_self_eq_zero.mp this
            exact hdeg hx0 (by subst hyr0; omega)
          · rintro ⟨hx0, hyr0⟩
            obtain ⟨he, hxc, hyc⟩ := hzero ⟨hx0, hyr0⟩
            subst hyr0
            exact ⟨by omega, by omega, hyc⟩
    · simp at hp

/-- C7 (amended): with `fill = false`, a quadrant whose `msk` bit is 0
receives no pixel strictly inside that quadrant, for every finite prefix of
the ellipse run (every fuel) and all non-negative radii.  (With
`fill = true` the code forces all four quadrant bits on, so `msk` cannot
disable a quadrant — see the counterexample.) -/
theorem c7_quadrant_gating (fuel w h : Nat) (cx cy xr yr : Int)
    (msk i : Nat) (hi : i < 4) (hxr : 0 ≤ xr) (hyr : 0 ≤ yr)
    (hmask : msk &&& (1 <<< i) = 0) :
    ∀ p ∈ ellipseWrites fuel w h cx cy xr yr false msk,
      ¬ strictQuad i cx cy p.1 p.2 := by
  intro p hp
  have hm15 : (msk &&& 15) &&& (1 <<< i) = 0 := by
    have h15 : 15 &&& (1 <<< i) = 1 <<< i := by
      rcases (by omega : i = 0 ∨ i = 1 ∨ i = 2 ∨ i = 3) with rfl | rfl | rfl | rfl <;>
        decide
    rw [Nat.and_assoc, h15, hmask]
  simp only [ellipseWrites] at hp
  rw [List.mem_append] at hp
  have hmask' : ((if false then 0x0F else 0) ||| (msk &&& 0x0F)) &&& (1 <<< i) = 0 := by
    simpa using hm15
  rcases hp with hp | hp
  · exact ellipseLoop1_quad w h cx cy _ _ _ i hi hmask' fuel xr 0 _ _ _ _ _
      le_rfl p hp
  · exact ellipseLoop2_quad w h cx cy xr yr hxr hyr _ i hi hmask' fuel 0 yr
      _ _ _ _ _ (by ring) le_rfl (fun _ _ => hyr)
      (fun hz => ⟨rfl, by rw [hz.2]; ring, by rw [hz.1]; ring⟩) p hp

/-- Witness for `c7_quadrant_gating`: an outlined ellipse of radii 2 at the
origin with `msk = 14` (bit 0 clear) draws the pixel `(2, 1)`, and that
pixel — like every pixel it draws — is not strictly inside the upper-right
quadrant. -/
theorem c7_quadrant_gating_witness :
    (2, 1) ∈ ellipseWrites 8 10 10 0 0 2 2 false 14
    ∧ ¬ strictQuad 0 0 0 (2 : Int) 1 :=
  ⟨by decide,
    c7_quadrant_gating 8 10 10 0 0 2 2 14 0 (by decide) (by decide)
      (by decide) (by decide) (2, 1) (by decide)⟩

/-- C7 counterexample: `ellipse(0, 0, 2, 2, col, fill=True, msk=0)` — every
quadrant bit of `msk` is 0, yet the pixel `(1, -1)`, strictly inside
quadrant 0, is drawn, because `fill=True` forces all four quadrant bits on.
The claim's "a quadrant whose mask bit is 0 receives no pixels, whether fill
is true or false" is false for `fill = true`. -/
theorem c7_counterexample :
    (1, -1) ∈ ellipseWrites 8 10 10 0 0 2 2 true 0
    ∧ strictQuad 0 0 0 1 (-1) := by
  constructor
  · decide
  · decide

/-! ## C8/C9: busy-wait timeout and the flush guard (ueink/core/base.py)

The busy pin is modelled as the sequence of values `busy.value()` returns
(`pin : Nat → Bool`, indexed by read number); sleeping between polls has no
observable effect besides the next read.  Bus activity is modelled as the
list of `_cmd`/`_data` calls.  The driver composition modelled is
`IEpd.driver_waveshare_3color` (`DrvWaveShare3Color._init/_flush` plus
`Transform2B._flush_raw_buffers`); the async `_flush_async` body is not
present under `src/`, and per the spec the cooperative variant implements
the identical polling/timeout policy, so it is modelled with the same
sequence as `_flush`. -/

/-- Errors raised by the flush paths (`RuntimeError` messages in the
source). -/
inductive EpdErr where
  | timeout
  | concurrent
  deriving DecidableEq

/-- A bus event: a command byte, or a data write of `n` bytes. -/
inductive Ev where
  | cmd (c : Nat)
  | data (n : Nat)
  deriving DecidableEq

/-- Driver state: the `_flushing` guard flag and the number of busy-pin
reads performed so far. -/
structure EpdSt where
  flushing : Bool
  pinIdx : Nat
  deriving DecidableEq

/-- The loop of `IEpd._wait4ready`: up to `n` polls; each iteration reads
the pin once and returns as soon as the read equals `rdy`; when the polls
are exhausted the `RuntimeError("EPD Timeout")` is raised (`false`).
Returns the success flag and the next pin-read index. -/
def wait4readyLoop (rdy : Bool) (pin : Nat → Bool) : Nat → Nat → Bool × Nat
  | i, 0 => (false, i)
  | i, n + 1 => if pin i = rdy then (true, i + 1) else wait4readyLoop rdy pin (i + 1) n

/-- `IEpd._wait4ready(busy, timeout)`: `rdy = int(not busy)`, then
`timeout * 100` polls.  `IEpd._wait4ready_async` is identical except that it
suspends instead of blocking between polls. -/
def wait4ready (busy : Bool) (timeout : Nat) (pin : Nat → Bool) (i : Nat) :
    Bool × Nat :=
  wait4readyLoop (!busy) pin i (timeout * 100)

/-- `DrvWaveShare3Color._init`: reset pulse (no bus event), the command/data
sequence 0x06, 0x00, 0x61, 0x50, 0x04, then `_wait4ready(False)` with the
default timeout 10. -/
def ws3cInit (pin : Nat → Bool) (i : Nat) : Bool × Nat × List Ev :=
  let evs := [Ev.cmd 0x06, Ev.data 3, Ev.cmd 0x00, Ev.data 1, Ev.cmd 0x61,
              Ev.data 4, Ev.cmd 0x50, Ev.data 1, Ev.cmd 0x04]
  let r := wait4ready false 10 pin i
  (r.1, r.2, evs)

/-- The chunked plane transfer of `Transform2B._flush_raw_buffers`: for
`i in range(0, buf_len, segm_len)` one data write of
`min(segm_len, buf_len - i)` bytes. -/
def flushChunks (bufLen segmLen : Nat) : List Ev :=
  (List.range ((bufLen + segmLen - 1) / segmLen)).map
    (fun k => Ev.data (min segmLen (bufLen - k * segmLen)))

/-- `Transform2B._flush_raw_buffers`: command 0x10 with the first plane's
chunks, then command 0x13 with the second plane's chunks. -/
def flushRawBuffers2B (fbLen blkSize : Nat) : List Ev :=
  let bufLen := fbLen / 4
  let segmLen := min bufLen blkSize
  [Ev.cmd 0x10] ++ flushChunks bufLen segmLen
    ++ [Ev.cmd 0x13] ++ flushChunks bufLen segmLen

/-- `DrvWaveShare3Color._flush`: command 0x12, `_wait4ready(False, 30)`,
then on success the power-off command 0x10 with one data byte. -/
def ws3cFlush (pin : Nat → Bool) (i : Nat) : Bool × Nat × List Ev :=
  let r := wait4ready false 30 pin i
  if r.1 then (true, r.2, [Ev.cmd 0x12, Ev.cmd 0x10, Ev.data 1])
  else (false, r.2, [Ev.cmd 0x12])

deriving instance DecidableEq for Except

/-- Result of a flush entry point: the Python return/raise, the final
driver state, the bus events produced by this call, and — as
instrumentation — the state in which the body (`_init`,
`_flush_raw_buffers`, `_flush`) runs. -/
structure FlushOut where
  result : Except EpdErr Unit
  final : EpdSt
  events : List Ev
  bodySt : EpdSt
  deriving DecidableEq

/-- The shared flush body: `self._init()`, `self._flush_raw_buffers(stream)`,
`self._flush()`, each timeout aborting the rest. -/
def flushBody (pin : Nat → Bool) (fbLen blkSize : Nat) (st : EpdSt) :
    Except EpdErr Unit × Nat × List Ev :=
  let r1 := ws3cInit pin st.pinIdx
  if r1.1 then
    let ev2 := flushRawBuffers2B fbLen blkSize
    let r3 := ws3cFlush pin r1.2.1
    if r3.1 then (Except.ok (), r3.2.1, r1.2.2 ++ ev2 ++ r3.2.2)
    else (Except.error EpdErr.timeout, r3.2.1, r1.2.2 ++ ev2 ++ r3.2.2)
  else (Except.error EpdErr.timeout, r1.2.1, r1.2.2)

/-- `IEpd._flush_raw` (the blocking entry point): rejects when `_flushing`
is set, otherwise runs the body.  Note that the blocking path never assigns
`_flushing` — the body runs with the guard exactly as it found it. -/
def flushRawSync (pin : Nat → Bool) (fbLen blkSize : Nat) (st : EpdSt) :
    FlushOut :=
  if st.flushing then ⟨Except.error EpdErr.concurrent, st, [], st⟩
  else
    let r := flushBody pin fbLen blkSize st
    ⟨r.1, ⟨st.flushing, r.2.1⟩, r.2.2, st⟩

/-- `IEpd._flush_raw_async` (the cooperative entry point): rejects when
`_flushing` is set, otherwise sets `_flushing = True`, runs the body, and
clears the flag in the `finally` block on every exit path. -/
def flushRawAsync (pin : Nat → Bool) (fbLen blkSize : Nat) (st : EpdSt) :
    FlushOut :=
  if st.flushing then ⟨Except.error EpdErr.concurrent, st, [], st⟩
  else
    let stB : EpdSt := ⟨true, st.pinIdx⟩
    let r := flushBody pin fbLen blkSize stB
    ⟨r.1, ⟨false, r.2.1⟩, r.2.2, stB⟩

/-- A pin that never reads `rdy` makes the wait loop consume exactly its
poll budget and fail. -/
theorem wait4readyLoop_stuck (rdy : Bool) (pin : Nat → Bool)
    (hpin : ∀ j, pin j ≠ rdy) :
    ∀ n i, wait4readyLoop rdy pin i n = (false, i + n) := by
  intro n
  induction n with
  | zero => intro i; rfl
  | succ m ih =>
    intro i
    rw [wait4readyLoop, if_neg (hpin i), ih]
    simp
    omega

/-- C8: (a) with the busy pin permanently not ready, `_wait4ready` polls
exactly `timeout * 100` times and then fails with the timeout error;
(b) from an idle driver, any flush — including one that fails with the
timeout — leaves the `_flushing` guard cleared (the async path clears it in
`finally`, the blocking path never sets it), so (c) a subsequent flush on
either entry point is accepted rather than rejected as concurrent. -/
theorem c8_timeout_poll_bound_and_cleanup
    (busy : Bool) (timeout : Nat) (pin : Nat → Bool) (i : Nat)
    (hpin : ∀ j, pin j = busy) :
    wait4ready busy timeout pin i = (false, i + timeout * 100)
    ∧ ∀ (pin' : Nat → Bool) (fbLen blkSize : Nat) (st : EpdSt),
        st.flushing = false →
        (flushRawAsync pin' fbLen blkSize st).final.flushing = false
        ∧ (flushRawSync pin' fbLen blkSize st).final.flushing = false
        ∧ (flushRawAsync pin' fbLen blkSize st).result
            ≠ Except.error EpdErr.concurrent
        ∧ (flushRawSync pin' fbLen blkSize st).result
            ≠ Except.error EpdErr.concurrent := by
  constructor
  · apply wait4readyLoop_stuck
    intro j
    rw [hpin j]
    cases busy <;> simp
  · intro pin' fbLen blkSize st hst
    have hni : ¬ st.flushing = true := by rw [hst]; simp
    refine ⟨?_, ?_, ?_, ?_⟩
    · simp only [flushRawAsync, if_neg hni]
    · simp only [flushRawSync, if_neg hni]
      exact hst
    · simp only [flushRawAsync, if_neg hni]
      show (flushBody pin' fbLen blkSize ⟨true, st.pinIdx⟩).1 ≠ _
      simp only [flushBody]
      split
      · split <;> simp
      · simp
    · simp only [flushRawSync, if_neg hni]
      show (flushBody pin' fbLen blkSize st).1 ≠ _
      simp only [flushBody]
      split
      · split <;> simp
      · simp

/-- Witness for `c8_timeout_poll_bound_and_cleanup`: a pin stuck at the busy
polarity `true`, `timeout = 10` (1000 polls), then a concrete full flush on
an idle 16-byte-frame driver. -/
theorem c8_timeout_poll_bound_and_cleanup_witness :
    wait4ready true 10 (fun _ => true) 0 = (false, 0 + 10 * 100)
    ∧ (flushRawAsync (fun _ => true) 16 1024 ⟨false, 0⟩).final.flushing = false
    ∧ (flushRawSync (fun _ => true) 16 1024 ⟨false, 0⟩).final.flushing = false
    ∧ (flushRawAsync (fun _ => true) 16 1024 ⟨false, 0⟩).result
        ≠ Except.error EpdErr.concurrent
    ∧ (flushRawSync (fun _ => true) 16 1024 ⟨false, 0⟩).result
        ≠ Except.error EpdErr.concurrent := by
  have h := c8_timeout_poll_bound_and_cleanup true 10 (fun _ => true) 0
    (fun _ => rfl)
  obtain ⟨h1, h2⟩ := h
  obtain ⟨ha, hb, hc, hd⟩ := h2 (fun _ => true) 16 1024 ⟨false, 0⟩ rfl
  exact ⟨h1, ha, hb, hc, hd⟩

/-- C9 (amended): a flush entry point invoked while the `_flushing` guard is
set fails immediately with the concurrent-flush error and performs no bus
writes; the cooperative entry point (`_flush_raw_async`) sets the guard for
the duration of its body, so any flush overlapping a suspended cooperative
flush — blocking or cooperative — is rejected with no bus activity.  (The
blocking entry point checks the guard but never sets it — see the
counterexample.) -/
theorem c9_guard_amended (pin : Nat → Bool) (fbLen blkSize : Nat)
    (st : EpdSt) :
    (st.flushing = true →
      flushRawSync pin fbLen blkSize st
          = ⟨Except.error EpdErr.concurrent, st, [], st⟩
      ∧ flushRawAsync pin fbLen blkSize st
          = ⟨Except.error EpdErr.concurrent, st, [], st⟩)
    ∧ (st.flushing = false →
      (flushRawAsync pin fbLen blkSize st).bodySt.flushing = true
      ∧ (flushRawSync pin fbLen blkSize
            ((flushRawAsync pin fbLen blkSize st).bodySt)).result
          = Except.error EpdErr.concurrent
      ∧ (flushRawSync pin fbLen blkSize
            ((flushRawAsync pin fbLen blkSize st).bodySt)).events = []
      ∧ (flushRawAsync pin fbLen blkSize
            ((flushRawAsync pin fbLen blkSize st).bodySt)).result
          = Except.error EpdErr.concurrent
      ∧ (flushRawAsync pin fbLen blkSize
            ((flushRawAsync pin fbLen blkSize st).bodySt)).events = []) := by
  constructor
  · intro h
    constructor
    · simp only [flushRawSync, if_pos h]
    · simp only [flushRawAsync, if_pos h]
  · intro h
    have hni : ¬ st.flushing = true := by rw [h]; simp
    have hB : (flushRawAsync pin fbLen blkSize st).bodySt
        = ⟨true, st.pinIdx⟩ := by
      simp only [flushRawAsync, if_neg hni]
    rw [hB]
    refine ⟨rfl, ?_, ?_, ?_, ?_⟩ <;> simp [flushRawSync, flushRawAsync]

/-- Witness for `c9_guard_amended`: the busy-guard rejection at the concrete
state `⟨true, 5⟩`, and the marking/rejection chain from the idle state
`⟨false, 0⟩`. -/
theorem c9_guard_amended_witness :
    flushRawSync (fun _ => true) 16 1024 ⟨true, 5⟩
        = ⟨Except.error EpdErr.concurrent, ⟨true, 5⟩, [], ⟨true, 5⟩⟩
    ∧ (flushRawAsync (fun _ => true) 16 1024 ⟨false, 0⟩).bodySt.flushing = true
    ∧ (flushRawSync (fun _ => true) 16 1024
          ((flushRawAsync (fun _ => true) 16 1024 ⟨false, 0⟩).bodySt)).events
        = [] := by
  refine ⟨((c9_guard_amended (fun _ => true) 16 1024 ⟨true, 5⟩).1 rfl).1, ?_, ?_⟩
  · exact ((c9_guard_amended (fun _ => true) 16 1024 ⟨false, 0⟩).2 rfl).1
  · exact ((c9_guard_amended (fun _ => true) 16 1024 ⟨false, 0⟩).2 rfl).2.2.1

/-- C9 counterexample: the blocking `_flush_raw` never sets `_flushing`: the
state in which its body runs still has the guard clear, and a flush issued
at that point is accepted (result is not the concurrent-flush error) instead
of being detected as overlapping.  This refutes "each flush entry point
marks the flush as in progress so that the overlapping call is detected". -/
theorem c9_counterexample :
    (flushRawSync (fun _ => true) 16 1024 ⟨false, 0⟩).bodySt.flushing = false
    ∧ (flushRawSync (fun _ => true) 16 1024
          ((flushRawSync (fun _ => true) 16 1024 ⟨false, 0⟩).bodySt)).result
        ≠ Except.error EpdErr.concurrent := by
  constructor
  · rfl
  · decide

/-! ## C5: blit (base.py 207-238)

`FrameBuffer.blit` dispatches through the attached format methods, so the
embedding is parameterised by the destination's `_setpixel` (`dset`), the
source's `_getpixel` as a pixel map (`sget`), and the palette's
`_getpixel(palette, col, 0)` as an optional remap (`pal`), exactly the three
dynamic calls the loop makes.  Besides the final buffer, the embedding
returns the write trace: one `(cx0, y0, col)` entry per `_setpixel` call, in
order. -/

/-- `if palette: col = palette._getpixel(palette, col, 0)`. -/
def palApp (pal : Option (Int → Int)) (c : Int) : Int :=
  match pal with
  | some p => p c
  | none => c

/-- The inner column loop of `blit`: `for cx0 in range(x0, x0end)` with the
paired source column `cx1`; writes only when the remapped value differs from
`key`. -/
def blitCols (dset : Buf → Nat → Nat → Int → Buf) (sget : Nat → Nat → Int)
    (pal : Option (Int → Int)) (key : Int) (x0 x1 y0 y1 : Nat) :
    List Nat → Buf → Buf × List (Nat × Nat × Int)
  | [], b => (b, [])
  | j :: rest, b =>
    let col := palApp pal (sget (x1 + j) y1)
    if col ≠ key then
      let r := blitCols dset sget pal key x0 x1 y0 y1 rest
        (dset b (x0 + j) y0 col)
      (r.1, (x0 + j, y0, col) :: r.2)
    else blitCols dset sget pal key x0 x1 y0 y1 rest b

/-- The outer row loop of `blit`: `while y0 < y0end`, advancing both the
destination row `y0` and the source row `y1`. -/
def blitRows (dset : Buf → Nat → Nat → Int → Buf) (sget : Nat → Nat → Int)
    (pal : Option (Int → Int)) (key : Int) (x0 x1 : Nat) (cols : Nat) :
    Nat → Nat → Nat → Buf → Buf × List (Nat × Nat × Int)
  | 0, _, _, b => (b, [])
  | n + 1, y0, y1, b =>
    let r := blitCols dset sget pal key x0 x1 y0 y1 (List.range cols) b
    let r2 := blitRows dset sget pal key x0 x1 cols n (y0 + 1) (y1 + 1) r.1
    (r2.1, r.2 ++ r2.2)

/-- `FrameBuffer.blit(source, x, y, key, palette)`. -/
def blit (dW dH sW sH : Nat) (x y key : Int) (pal : Option (Int → Int))
    (sget : Nat → Nat → Int) (dset : Buf → Nat → Nat → Int → Buf)
    (b : Buf) : Buf × List (Nat × Nat × Int) :=
  if (dW : Int) ≤ x ∨ (dH : Int) ≤ y ∨ (sW : Int) ≤ -x ∨ (sH : Int) ≤ -y then
    (b, [])
  else
    let x0 := (max 0 x).toNat
    let y0 := (max 0 y).toNat
    let x1 := (max 0 (-x)).toNat
    let y1 := (max 0 (-y)).toNat
    let x0end := (min (dW : Int) (x + sW)).toNat
    let y0end := (min (dH : Int) (y + sH)).toNat
    blitRows dset sget pal key x0 x1 (x0end - x0) (y0end - y0) y0 y1 b

/-- Trace membership for the column loop. -/
theorem blitCols_mem (dset : Buf → Nat → Nat → Int → Buf)
    (sget : Nat → Nat → Int) (pal : Option (Int → Int)) (key : Int)
    (x0 x1 y0 y1 : Nat) :
    ∀ (l : List Nat) (b : Buf) (t : Nat × Nat × Int),
      t ∈ (blitCols dset sget pal key x0 x1 y0 y1 l b).2 ↔
        ∃ j ∈ l, palApp pal (sget (x1 + j) y1) ≠ key
          ∧ t = (x0 + j, y0, palApp pal (sget (x1 + j) y1)) := by
  intro l
  induction l with
  | nil =>
    intro b t
    simp [blitCols]
  | cons j rest ih =>
    intro b t
    simp only [blitCols]
    split
    · rename_i hne
      constructor
      · intro ht
        rcases List.mem_cons.mp ht with rfl | ht'
        · exact ⟨j, List.mem_cons_self j rest, hne, rfl⟩
        · obtain ⟨j', hj', hne', rfl⟩ := (ih _ _).mp ht'
          exact ⟨j', List.mem_cons_of_mem j hj', hne', rfl⟩
      · rintro ⟨j', hj', hne', rfl⟩
        rcases List.mem_cons.mp hj' with rfl | hj'
        · exact List.mem_cons.mpr (Or.inl rfl)
        · exact List.mem_cons.mpr (Or.inr ((ih _ _).mpr ⟨j', hj', hne', rfl⟩))
    · rename_i hne
      rw [ih]
      constructor
      · rintro ⟨j', hj', hne', rfl⟩
        exact ⟨j', List.mem_cons_of_mem j hj', hne', rfl⟩
      · rintro ⟨j', hj', hne', rfl⟩
        rcases List.mem_cons.mp hj' with rfl | hj'
        · exact absurd hne' hne
        · exact ⟨j', hj', hne', rfl⟩

/-- Trace membership for the row loop. -/
theorem blitRows_mem (dset : Buf → Nat → Nat → Int → Buf)
    (sget : Nat → Nat → Int) (pal : Option (Int → Int)) (key : Int)
    (x0 x1 cols : Nat) :
    ∀ (n y0 y1 : Nat) (b : Buf) (t : Nat × Nat × Int),
      t ∈ (blitRows dset sget pal key x0 x1 cols n y0 y1 b).2 ↔
        ∃ k < n, ∃ j < cols, palApp pal (sget (x1 + j) (y1 + k)) ≠ key
          ∧ t = (x0 + j, y0 + k, palApp pal (sget (x1 + j) (y1 + k))) := by
  intro n
  induction n with
  | zero =>
    intro y0 y1 b t
    simp [blitRows]
  | succ m ih =>
    intro y0 y1 b t
    simp only [blitRows, List.mem_append]
    rw [blitCols_mem, ih]
    constructor
    · rintro (⟨j, hj, hne, rfl⟩ | ⟨k, hk, j, hj, hne, rfl⟩)
      · exact ⟨0, Nat.succ_pos m, j, List.mem_range.mp hj, by simpa using hne,
          by simp⟩
      · refine ⟨k + 1, by omega, j, hj, ?_, ?_⟩
        · have e1 : y1 + (k + 1) = y1 + 1 + k := by omega
          rw [e1]
          exact hne
        · have e1 : y0 + (k + 1) = y0 + 1 + k := by omega
          have e2 : y1 + (k + 1) = y1 + 1 + k := by omega
          rw [e1, e2]
    · rintro ⟨k, hk, j, hj, hne, rfl⟩
      rcases Nat.eq_zero_or_pos k with rfl | hkpos
      · exact Or.inl ⟨j, List.mem_range.mpr hj, by simpa using hne, by simp⟩
      · refine Or.inr ⟨k - 1, by omega, j, hj, ?_, ?_⟩
        · have e2 : y1 + 1 + (k - 1) = y1 + k := by omega
          rw [e2]
          exact hne
        · have h1 : y0 + 1 + (k - 1) = y0 + k := by omega
          have h2 : y1 + 1 + (k - 1) = y1 + k := by omega
          rw [h1, h2]

/-- C5: (a) blit never writes a value equal to `key`, and every write at
destination `(i, j)` carries the palette-remapped source value read at
`(i - x, j - y)` — the source read origin is correctly offset also for
negative `x`, `y`; (b) with no palette and a negative (`none`-sentinel) key
over a non-negative-valued source, the trace contains exactly one write for
every pixel of the clipped overlap rectangle, carrying the raw source value;
(c) a placement with no overlap is a no-op. -/
theorem c5_blit (dW dH sW sH : Nat) (x y key : Int) (pal : Option (Int → Int))
    (sget : Nat → Nat → Int) (dset : Buf → Nat → Nat → Int → Buf) (b : Buf) :
    (∀ t ∈ (blit dW dH sW sH x y key pal sget dset b).2,
        t.2.2 ≠ key
        ∧ x ≤ t.1 ∧ y ≤ t.2.1
        ∧ t.2.2 = palApp pal (sget ((t.1 - x).toNat) ((t.2.1 - y).toNat)))
    ∧ (pal = none → key < 0 → (∀ a c, 0 ≤ sget a c) →
        ∀ i j : Nat,
          ((x ≤ i ∧ (i : Int) < x + sW ∧ i < dW
            ∧ y ≤ j ∧ (j : Int) < y + sH ∧ j < dH) ↔
            (i, j, sget ((i - x).toNat) ((j - y).toNat))
              ∈ (blit dW dH sW sH x y key pal sget dset b).2))
    ∧ (((dW : Int) ≤ x ∨ (dH : Int) ≤ y ∨ (sW : Int) ≤ -x ∨ (sH : Int) ≤ -y) →
        blit dW dH sW sH x y key pal sget dset b = (b, [])) := by
  refine ⟨?_, ?_, ?_⟩
  · intro t ht
    by_cases hg : (dW : Int) ≤ x ∨ (dH : Int) ≤ y ∨ (sW : Int) ≤ -x ∨ (sH : Int) ≤ -y
    · rw [blit, if_pos hg] at ht
      simp at ht
    · rw [blit, if_neg hg] at ht
      rw [blitRows_mem] at ht
      obtain ⟨k, hk, j, hj, hne, rfl⟩ := ht
      dsimp only
      refine ⟨hne, by omega, by omega, ?_⟩
      have e1 : ((((max 0 x).toNat + j : Nat) : Int) - x).toNat
          = (max 0 (-x)).toNat + j := by omega
      have e2 : ((((max 0 y).toNat + k : Nat) : Int) - y).toNat
          = (max 0 (-y)).toNat + k := by omega
      rw [e1, e2]
  · intro hpal hkey hs i j
    subst hpal
    by_cases hg : (dW : Int) ≤ x ∨ (dH : Int) ≤ y ∨ (sW : Int) ≤ -x ∨ (sH : Int) ≤ -y
    · rw [blit, if_pos hg]
      dsimp only
      simp only [List.not_mem_nil, iff_false]
      rintro ⟨h1, h2, h3, h4, h5, h6⟩
      omega
    · rw [blit, if_neg hg]
      rw [blitRows_mem]
      constructor
      · rintro ⟨h1, h2, h3, h4, h5, h6⟩
        refine ⟨j - (max 0 y).toNat, by omega, i - (max 0 x).toNat, by omega,
          ?_, ?_⟩
        · simp only [palApp]
          have := hs ((max 0 (-x)).toNat + (i - (max 0 x).toNat))
            ((max 0 (-y)).toNat + (j - (max 0 y).toNat))
          omega
        · simp only [palApp, Prod.mk.injEq]
          have e1 : ((i : Int) - x).toNat
              = (max 0 (-x)).toNat + (i - (max 0 x).toNat) := by omega
          have e2 : ((j : Int) - y).toNat
              = (max 0 (-y)).toNat + (j - (max 0 y).toNat) := by omega
          rw [e1, e2]
          exact ⟨by omega, by omega, rfl⟩
      · rintro ⟨k, hk, j', hj', hne, heq⟩
        injection heq with hi hrest
        injection hrest with hj2 hval
        omega
  · intro hg
    rw [blit, if_pos hg]

/-- Witness for `c5_blit`: a 2×2 source placed at `(-1, 0)` on a 2×1
destination with no palette and the default key `-1`, over a source reading
constantly 3: the clipped-overlap pixel `(0, 0)` is written with the raw
source value read at the offset origin `(1, 0)`. -/
theorem c5_blit_witness :
    (0, 0, (3 : Int)) ∈ (blit 2 1 2 2 (-1) 0 (-1) none (fun _ _ => 3)
        (fun b _ _ _ => b) zeroBuf).2 := by
  have h := ((c5_blit 2 1 2 2 (-1) 0 (-1) none (fun _ _ => 3)
      (fun b _ _ _ => b) zeroBuf).2.1 rfl (by norm_num)
      (fun _ _ => by norm_num) 0 0).mp (by norm_num)
  simpa using h

/-! ## C6: scroll (base.py 240-268)

`FrameBuffer.scroll` copies cell by cell through the bound format's
`_setpixel`/`_getpixel`.  The claim is about the iteration order and the
cell-level dataflow, so the buffer is abstracted to a pixel grid (a value
store indexed by in-bounds coordinates — the packing level is covered by the
round-trip theorems); the embedding keeps the source's loop bounds, early
returns and directions exactly.  Each step performs
`setpixel(x, y, getpixel(x - xstep, y - ystep))`; the second component of
the result records every `_getpixel` coordinate, in order. -/

/-- A pixel grid. -/
def Grid : Type := Nat → Nat → Nat

/-- Pointwise pixel write. -/
def gridSet (g : Grid) (x y v : Nat) : Grid :=
  fun a b => if a = x ∧ b = y then v else g a b

/-- The inner column loop of `scroll` for one row `r`:
`for x in range(sx, xend, dx)`, given as the explicit column list. -/
def scrollCols (xstep ystep : Int) (r : Nat) :
    List Nat → Grid → Grid × List (Int × Int)
  | [], g => (g, [])
  | c :: rest, g =>
    let src : Int × Int := ((c : Int) - xstep, (r : Int) - ystep)
    let g' := gridSet g c r (g src.1.toNat src.2.toNat)
    let out := scrollCols xstep ystep r rest g'
    (out.1, src :: out.2)

/-- The outer row loop of `scroll`: `while y != yend: ...; y += dy`, given as
the explicit row list. -/
def scrollRows (xstep ystep : Int) (cols : List Nat) :
    List Nat → Grid → Grid × List (Int × Int)
  | [], g => (g, [])
  | r :: rest, g =>
    let o1 := scrollCols xstep ystep r cols g
    let o2 := scrollRows xstep ystep cols rest o1.1
    (o2.1, o1.2 ++ o2.2)

/-- The column list of `scroll`: ascending `0 .. w+xstep-1` for a negative
step, descending `w-1 .. xstep` otherwise. -/
def scrollColList (w : Nat) (xstep : Int) : List Nat :=
  if xstep < 0 then List.range (w + xstep).toNat
  else (List.range (w - xstep.toNat)).map (fun i => w - 1 - i)

/-- The row list of `scroll`, analogous to `scrollColList`. -/
def scrollRowList (h : Nat) (ystep : Int) : List Nat :=
  if ystep < 0 then List.range (h + ystep).toNat
  else (List.range (h - ystep.toNat)).map (fun i => h - 1 - i)

/-- `FrameBuffer.scroll(xstep, ystep)`: the early returns for a shift at
least as large as the buffer, then the row/column loops. -/
def scroll (w h : Nat) (xstep ystep : Int) (g : Grid) :
    Grid × List (Int × Int) :=
  if xstep < 0 ∧ (w : Int) + xstep ≤ 0 then (g, [])
  else if 0 ≤ xstep ∧ xstep - 1 ≥ (w : Int) - 1 then (g, [])
  else if ystep < 0 ∧ (h : Int) + ystep ≤ 0 then (g, [])
  else if 0 ≤ ystep ∧ ystep - 1 ≥ (h : Int) - 1 then (g, [])
  else scrollRows xstep ystep (scrollColList w xstep) (scrollRowList h ystep) g

/-- Columns of `scrollColList` are exactly the in-bounds destinations whose
source column is also in bounds. -/
theorem mem_scrollColList (w : Nat) (xstep : Int) (hw : ¬ (xstep < 0 ∧ (w : Int) + xstep ≤ 0))
    (hw2 : ¬ (0 ≤ xstep ∧ xstep - 1 ≥ (w : Int) - 1)) :
    ∀ a : Nat, a ∈ scrollColList w xstep ↔
      a < w ∧ 0 ≤ (a : Int) - xstep ∧ (a : Int) - xstep < w := by
  intro a
  unfold scrollColList
  split
  · rename_i hneg
    rw [List.mem_range]
    omega
  · rename_i hneg
    rw [List.mem_map]
    constructor
    · rintro ⟨i, hi, rfl⟩
      rw [List.mem_range] at hi
      omega
    · rintro ⟨h1, h2, h3⟩
      exact ⟨w - 1 - a, List.mem_range.mpr (by omega), by omega⟩

/-- Rows of `scrollRowList` are exactly the in-bounds destinations whose
source row is also in bounds. -/
theorem mem_scrollRowList (h : Nat) (ystep : Int)
    (hh : ¬ (ystep < 0 ∧ (h : Int) + ystep ≤ 0))
    (hh2 : ¬ (0 ≤ ystep ∧ ystep - 1 ≥ (h : Int) - 1)) :
    ∀ a : Nat, a ∈ scrollRowList h ystep ↔
      a < h ∧ 0 ≤ (a : Int) - ystep ∧ (a : Int) - ystep < h := by
  intro a
  unfold scrollRowList
  split
  · rename_i hneg
    rw [List.mem_range]
    omega
  · rename_i hneg
    rw [List.mem_map]
    constructor
    · rintro ⟨i, hi, rfl⟩
      rw [List.mem_range] at hi
      omega
    · rintro ⟨h1, h2, h3⟩
      exact ⟨h - 1 - a, List.mem_range.mpr (by omega), by omega⟩

/-- The column list is ordered so that a later destination's source column
never equals an earlier (already written) destination column when the row is
copied onto itself (`ystep = 0` uses the same row). -/
theorem pairwise_scrollColList (w : Nat) (xstep : Int) :
    (scrollColList w xstep).Pairwise
      (fun (c1 c2 : Nat) => (c2 : Int) - xstep ≠ (c1 : Int)) := by
  unfold scrollColList
  split
  · rename_i hneg
    refine (List.pairwise_lt_range _).imp ?_
    intro a b hab
    omega
  · rename_i hneg
    rw [List.pairwise_map]
    refine (List.pairwise_lt_range _).imp_of_mem ?_
    intro a b ha hb hab
    rw [List.mem_range] at ha hb
    omega

/-- Same ordering property for the row list. -/
theorem pairwise_scrollRowList (h : Nat) (ystep : Int) :
    (scrollRowList h ystep).Pairwise
      (fun (r1 r2 : Nat) => (r2 : Int) - ystep ≠ (r1 : Int)) := by
  unfold scrollRowList
  split
  · refine (List.pairwise_lt_range _).imp ?_
    intro a b hab
    omega
  · rename_i hneg
    rw [List.pairwise_map]
    refine (List.pairwise_lt_range _).imp_of_mem ?_
    intro a b ha hb hab
    rw [List.mem_range] at ha hb
    omega

/-- The column list has no duplicates. -/
theorem nodup_scrollColList (w : Nat) (xstep : Int) :
    (scrollColList w xstep).Nodup := by
  unfold scrollColList
  split
  · exact List.nodup_range _
  · rw [List.Nodup, List.pairwise_map]
    refine (List.pairwise_lt_range _).imp_of_mem ?_
    intro a b ha hb hab
    rw [List.mem_range] at ha hb
    omega

/-- The row list has no duplicates. -/
theorem nodup_scrollRowList (h : Nat) (ystep : Int) :
    (scrollRowList h ystep).Nodup := by
  unfold scrollRowList
  split
  · exact List.nodup_range _
  · rw [List.Nodup, List.pairwise_map]
    refine (List.pairwise_lt_range _).imp_of_mem ?_
    intro a b ha hb hab
    rw [List.mem_range] at ha hb
    omega

/-- Every read recorded by one row pass comes from a column of the list. -/
theorem scrollCols_reads (xstep ystep : Int) (r : Nat) :
    ∀ (C : List Nat) (g : Grid), ∀ rd ∈ (scrollCols xstep ystep r C g).2,
      ∃ c ∈ C, rd = ((c : Int) - xstep, (r : Int) - ystep) := by
  intro C
  induction C with
  | nil =>
    intro g rd hrd
    simp [scrollCols] at hrd
  | cons c rest ih =>
    intro g rd hrd
    simp only [scrollCols] at hrd
    rcases List.mem_cons.mp hrd with rfl | hrd'
    · exact ⟨c, List.mem_cons_self c rest, rfl⟩
    · obtain ⟨c', hc', rfl⟩ := ih _ rd hrd'
      exact ⟨c', List.mem_cons_of_mem c hc', rfl⟩

/-- Every read recorded by the row loop comes from a row of the list and a
column of the list. -/
theorem scrollRows_reads (xstep ystep : Int) (C : List Nat) :
    ∀ (R : List Nat) (g : Grid), ∀ rd ∈ (scrollRows xstep ystep C R g).2,
      ∃ r ∈ R, ∃ c ∈ C, rd = ((c : Int) - xstep, (r : Int) - ystep) := by
  intro R
  induction R with
  | nil =>
    intro g rd hrd
    simp [scrollRows] at hrd
  | cons r rest ih =>
    intro g rd hrd
    simp only [scrollRows, List.mem_append] at hrd
    rcases hrd with hrd | hrd
    · obtain ⟨c, hc, rfl⟩ := scrollCols_reads xstep ystep r C g rd hrd
      exact ⟨r, List.mem_cons_self r rest, c, hc, rfl⟩
    · obtain ⟨r', hr', c, hc, rfl⟩ := ih _ rd hrd
      exact ⟨r', List.mem_cons_of_mem r hr', c, hc, rfl⟩

/-- One row pass: every cell `(c, r)` with `c` in the column list receives
the value the *initial* grid holds at its source cell; all other cells are
untouched.  Uses the ordering property: within a row, a step's source cell
is never a cell an earlier step of the same row has written. -/
theorem scrollCols_spec (xstep ystep : Int) (r : Nat)
    (hr : 0 ≤ (r : Int) - ystep) :
    ∀ (C : List Nat), C.Nodup →
      C.Pairwise (fun (c1 c2 : Nat) => (c2 : Int) - xstep ≠ (c1 : Int)) →
      (∀ c ∈ C, 0 ≤ (c : Int) - xstep) →
      ∀ (g : Grid) (a b : Nat),
        (scrollCols xstep ystep r C g).1 a b
          = if b = r ∧ a ∈ C
            then g ((a : Int) - xstep).toNat ((r : Int) - ystep).toNat
            else g a b := by
  intro C
  induction C with
  | nil =>
    intro _ _ _ g a b
    simp [scrollCols]
  | cons c rest ih =>
    intro hnd hpw hb g a b
    rw [List.nodup_cons] at hnd
    rw [List.pairwise_cons] at hpw
    simp only [scrollCols]
    rw [ih hnd.2 hpw.2 (fun c' hc' => hb c' (List.mem_cons_of_mem c hc'))]
    rcases Decidable.em (b = r) with hbr | hbr
    · rcases Decidable.em (a = c) with hac | hac
      · have hyet : ¬ a ∈ rest := hac ▸ hnd.1
        rw [if_neg (by rintro ⟨-, hcon⟩; exact hyet hcon),
          if_pos ⟨hbr, List.mem_cons.mpr (Or.inl hac)⟩]
        subst hac
        subst hbr
        simp [gridSet]
      · rcases Decidable.em (a ∈ rest) with hrest | hrest
        · rw [if_pos ⟨hbr, hrest⟩, if_pos ⟨hbr, List.mem_cons_of_mem c hrest⟩]
          simp only [gridSet]
          rw [if_neg]
          rintro ⟨h1, -⟩
          have hcb := hb c (List.mem_cons_self c rest)
          have hab := hb a (List.mem_cons_of_mem c hrest)
          exact hpw.1 a hrest (by omega)
        · have hnm : ¬ a ∈ c :: rest := by
            intro hcon
            rcases List.mem_cons.mp hcon with hcon2 | hcon2
            · exact hac hcon2
            · exact hrest hcon2
          rw [if_neg (by rintro ⟨-, hcon⟩; exact hrest hcon),
            if_neg (by rintro ⟨-, hcon⟩; exact hnm hcon)]
          simp only [gridSet]
          rw [if_neg]
          rintro ⟨hcon, -⟩
          exact hac hcon
    · rw [if_neg (by rintro ⟨hcon, -⟩; exact hbr hcon),
        if_neg (by rintro ⟨hcon, -⟩; exact hbr hcon)]
      simp only [gridSet]
      rw [if_neg]
      rintro ⟨-, hcon⟩
      exact hbr hcon

/-- The row loop: relative to the initial grid, exactly the cells in
`rows × cols` receive their source values; everything else is untouched.
Uses the row ordering so that no step reads a row an earlier row pass has
already rewritten. -/
theorem scrollRows_spec (xstep ystep : Int) (C : List Nat)
    (hCnd : C.Nodup)
    (hCpw : C.Pairwise (fun (c1 c2 : Nat) => (c2 : Int) - xstep ≠ (c1 : Int)))
    (hCb : ∀ c ∈ C, 0 ≤ (c : Int) - xstep) :
    ∀ (R : List Nat), R.Nodup →
      R.Pairwise (fun (r1 r2 : Nat) => (r2 : Int) - ystep ≠ (r1 : Int)) →
      (∀ r ∈ R, 0 ≤ (r : Int) - ystep) →
      ∀ (g : Grid) (a b : Nat),
        (scrollRows xstep ystep C R g).1 a b
          = if b ∈ R ∧ a ∈ C
            then g ((a : Int) - xstep).toNat ((b : Int) - ystep).toNat
            else g a b := by
  intro R
  induction R with
  | nil =>
    intro _ _ _ g a b
    simp [scrollRows]
  | cons r rest ih =>
    intro hnd hpw hbnd g a b
    rw [List.nodup_cons] at hnd
    rw [List.pairwise_cons] at hpw
    have hr0 : 0 ≤ (r : Int) - ystep := hbnd r (List.mem_cons_self r rest)
    simp only [scrollRows]
    rw [ih hnd.2 hpw.2 (fun r' hr' => hbnd r' (List.mem_cons_of_mem r hr'))]
    have hcols := scrollCols_spec xstep ystep r hr0 C hCnd hCpw hCb g
    by_cases hbm : b ∈ rest
    · have hbr : b ≠ r := fun hcon => hnd.1 (hcon ▸ hbm)
      by_cases ham : a ∈ C
      · rw [if_pos ⟨hbm, ham⟩, if_pos ⟨List.mem_cons_of_mem r hbm, ham⟩]
        rw [hcols]
        rw [if_neg]
        rintro ⟨h1, -⟩
        -- the source row of `(a, b)` cannot be the already rewritten row `r`
        have hb0 := hbnd b (List.mem_cons_of_mem r hbm)
        exact hpw.1 b hbm (by omega)
      · rw [if_neg (fun hcon => ham hcon.2), if_neg (fun hcon => ham hcon.2)]
        rw [hcols]
        rw [if_neg (fun hcon => ham hcon.2)]
    · by_cases hbr : b = r
      · subst hbr
        have hnotrest : ¬ (b ∈ rest ∧ a ∈ C) := fun hcon => hbm hcon.1
        rw [if_neg hnotrest]
        rw [hcols]
        by_cases ham : a ∈ C
        · rw [if_pos ⟨rfl, ham⟩, if_pos ⟨List.mem_cons_self b rest, ham⟩]
        · rw [if_neg (fun hcon => ham hcon.2), if_neg (fun hcon => ham hcon.2)]
      · have h1 : ¬ (b ∈ rest ∧ a ∈ C) := fun hcon => hbm hcon.1
        have h2 : ¬ (b ∈ r :: rest ∧ a ∈ C) := by
          rintro ⟨hc1, -⟩
          rcases List.mem_cons.mp hc1 with rfl | hc
          · exact hbr rfl
          · exact hbm hc
        rw [if_neg h1, hcols, if_neg (fun hcon : b = r ∧ a ∈ C => hbr hcon.1),
          if_neg h2]

/-- C6: every read `scroll` performs lies inside the buffer (no wraparound),
and the resulting grid is the in-place shift of the *original* grid — each
destination cell whose source is in bounds holds the original source value
(so every source cell is read before it is overwritten), and every other
cell keeps its previous contents. -/
theorem c6_scroll (w h : Nat) (xstep ystep : Int) (g : Grid) :
    (∀ rd ∈ (scroll w h xstep ystep g).2,
        0 ≤ rd.1 ∧ rd.1 < w ∧ 0 ≤ rd.2 ∧ rd.2 < h)
    ∧ ∀ i j : Nat, i < w → j < h →
        (scroll w h xstep ystep g).1 i j
          = if 0 ≤ (i : Int) - xstep ∧ (i : Int) - xstep < w
              ∧ 0 ≤ (j : Int) - ystep ∧ (j : Int) - ystep < h
            then g ((i : Int) - xstep).toNat ((j : Int) - ystep).toNat
            else g i j := by
  by_cases hg1 : xstep < 0 ∧ (w : Int) + xstep ≤ 0
  · rw [scroll, if_pos hg1]
    constructor
    · intro rd hrd
      simp at hrd
    · intro i j hi hj
      rw [if_neg]
      rintro ⟨h1, h2, -⟩
      omega
  · by_cases hg2 : 0 ≤ xstep ∧ xstep - 1 ≥ (w : Int) - 1
    · rw [scroll, if_neg hg1, if_pos hg2]
      constructor
      · intro rd hrd
        simp at hrd
      · intro i j hi hj
        rw [if_neg]
        rintro ⟨h1, h2, -⟩
        omega
    · by_cases hg3 : ystep < 0 ∧ (h : Int) + ystep ≤ 0
      · rw [scroll, if_neg hg1, if_neg hg2, if_pos hg3]
        constructor
        · intro rd hrd
          simp at hrd
        · intro i j hi hj
          rw [if_neg]
          rintro ⟨-, -, h3, h4⟩
          omega
      · by_cases hg4 : 0 ≤ ystep ∧ ystep - 1 ≥ (h : Int) - 1
        · rw [scroll, if_neg hg1, if_neg hg2, if_neg hg3, if_pos hg4]
          constructor
          · intro rd hrd
            simp at hrd
          · intro i j hi hj
            rw [if_neg]
            rintro ⟨-, -, h3, h4⟩
            omega
        · have hCmem := mem_scrollColList w xstep hg1 hg2
          have hRmem := mem_scrollRowList h ystep hg3 hg4
          have hCnd := nodup_scrollColList w xstep
          have hRnd := nodup_scrollRowList h ystep
          have hCpw := pairwise_scrollColList w xstep
          have hRpw := pairwise_scrollRowList h ystep
          rw [scroll, if_neg hg1, if_neg hg2, if_neg hg3, if_neg hg4]
          constructor
          · intro rd hrd
            obtain ⟨r, hr, c, hc, rfl⟩ :=
              scrollRows_reads xstep ystep _ _ g rd hrd
            obtain ⟨hc1, hc2, hc3⟩ := (hCmem c).mp hc
            obtain ⟨hr1, hr2, hr3⟩ := (hRmem r).mp hr
            exact ⟨hc2, hc3, hr2, hr3⟩
          · intro i j hi hj
            rw [scrollRows_spec xstep ystep _ hCnd hCpw
              (fun c hc => ((hCmem c).mp hc).2.1) _ hRnd hRpw
              (fun r hr => ((hRmem r).mp hr).2.1) g i j]
            by_cases hreg : 0 ≤ (i : Int) - xstep ∧ (i : Int) - xstep < w
                ∧ 0 ≤ (j : Int) - ystep ∧ (j : Int) - ystep < h
            · rw [if_pos hreg, if_pos ⟨(hRmem j).mpr ⟨hj, hreg.2.2.1, hreg.2.2.2⟩,
                (hCmem i).mpr ⟨hi, hreg.1, hreg.2.1⟩⟩]
            · rw [if_neg, if_neg hreg]
              rintro ⟨hjr, hic⟩
              obtain ⟨-, hc2, hc3⟩ := (hCmem i).mp hic
              obtain ⟨-, hr2, hr3⟩ := (hRmem j).mp hjr
              exact hreg ⟨hc2, hc3, hr2, hr3⟩

/-- Witness for `c6_scroll`: scrolling a 3×2 grid by `(1, 0)`; the theorem at
`(i, j) = (1, 0)` yields the original cell `(0, 0)` (source read before
overwrite), and at `(0, 0)` — whose source column `-1` is outside — the
previous contents. -/
theorem c6_scroll_witness :
    (scroll 3 2 1 0 (fun a b => a + 10 * b)).1 1 0
        = (if 0 ≤ ((1 : Nat) : Int) - 1 ∧ ((1 : Nat) : Int) - 1 < 3
              ∧ 0 ≤ ((0 : Nat) : Int) - 0 ∧ ((0 : Nat) : Int) - 0 < 2
           then (fun a b => a + 10 * b) (((1 : Nat) : Int) - 1).toNat
             (((0 : Nat) : Int) - 0).toNat
           else (fun a b => a + 10 * b) 1 0)
    ∧ (scroll 3 2 1 0 (fun a b => a + 10 * b)).1 0 0
        = (if 0 ≤ ((0 : Nat) : Int) - 1 ∧ ((0 : Nat) : Int) - 1 < 3
              ∧ 0 ≤ ((0 : Nat) : Int) - 0 ∧ ((0 : Nat) : Int) - 0 < 2
           then (fun a b => a + 10 * b) (((0 : Nat) : Int) - 1).toNat
             (((0 : Nat) : Int) - 0).toNat
           else (fun a b => a + 10 * b) 0 0) :=
  ⟨(c6_scroll 3 2 1 0 (fun a b => a + 10 * b)).2 1 0 (by decide) (by decide),
   (c6_scroll 3 2 1 0 (fun a b => a + 10 * b)).2 0 0 (by decide) (by decide)⟩

/-! ## C1: raw conversion and rotation (ueink/core/transform.py)

`Transform1B._fb2raw` and `Transform2B._fb2raw_com` convert the working
`GS4_HMSB` buffer (dimensions `self.width × self.height`) into `MONO_HLSB`
plane(s).  The 0° branch is the `blit`-based fast path; the other branches
are per-pixel loops through the bound `FrameBuffer.pixel` methods, whose
out-of-bounds read returns `None` and makes the following `>> 3` /
comparison raise — embedded as `Option`. -/

/-- The write path of `FrameBuffer.pixel(x, y, col)` for `Nat` coordinates
(the transform loops' loop variables): in bounds and `col ≥ 0` writes,
in bounds and `col < 0` reads (no buffer change), out of bounds is a
no-op. -/
def pyPixelSet (w h : Nat) (setp : Buf → Nat → Nat → Int → Buf) (b : Buf)
    (x y : Nat) (col : Int) : Buf :=
  if x < w ∧ y < h then (if col < 0 then b else setp b x y col) else b

/-- Pure nested write loop, the common shape of the 0° `blit` path and the
per-pixel rotation loops: columns `0..n-1` within a row. -/
def copyCols (dset : Buf → Nat → Nat → Int → Buf) (val : Nat → Nat → Int)
    (yd ys : Nat) : List Nat → Buf → Buf
  | [], b => b
  | j :: rest, b => copyCols dset val yd ys rest (dset b j yd (val j ys))

/-- Pure nested write loop: `k` rows, destination row `yd` and value row
`ys` advancing together. -/
def copyRows (dset : Buf → Nat → Nat → Int → Buf) (val : Nat → Nat → Int)
    (n : Nat) : Nat → Nat → Nat → Buf → Buf
  | 0, _, _, b => b
  | k + 1, yd, ys, b =>
    copyRows dset val n k (yd + 1) (ys + 1)
      (copyCols dset val yd ys (List.range n) b)

theorem copyRows_zero_width (dset : Buf → Nat → Nat → Int → Buf)
    (val : Nat → Nat → Int) :
    ∀ (k yd ys : Nat) (b : Buf), copyRows dset val 0 k yd ys b = b := by
  intro k
  induction k with
  | zero => intro yd ys b; rfl
  | succ m ih =>
    intro yd ys b
    simp only [copyRows, List.range_zero]
    exact ih _ _ _

/-- When no value can equal the key, the blit column loop writes every
column unconditionally. -/
theorem blitCols_eq_copyCols (dset : Buf → Nat → Nat → Int → Buf)
    (sget : Nat → Nat → Int) (pal : Option (Int → Int)) (key : Int)
    (yd ys : Nat) (hall : ∀ j ys', palApp pal (sget j ys') ≠ key) :
    ∀ (l : List Nat) (b : Buf),
      (blitCols dset sget pal key 0 0 yd ys l b).1
        = copyCols dset (fun j t => palApp pal (sget j t)) yd ys l b := by
  intro l
  induction l with
  | nil => intro b; rfl
  | cons j rest ih =>
    intro b
    simp only [blitCols]
    rw [if_pos (hall (0 + j) ys)]
    dsimp only
    rw [ih]
    simp only [copyCols, Nat.zero_add]

/-- Row-loop version of `blitCols_eq_copyCols` for a full-overlap blit at
`(0, 0)`. -/
theorem blitRows_eq_copyRows (dset : Buf → Nat → Nat → Int → Buf)
    (sget : Nat → Nat → Int) (pal : Option (Int → Int)) (key : Int)
    (n : Nat) (hall : ∀ j ys', palApp pal (sget j ys') ≠ key) :
    ∀ (k t : Nat) (b : Buf),
      (blitRows dset sget pal key 0 0 n k t t b).1
        = copyRows dset (fun j s => palApp pal (sget j s)) n k t t b := by
  intro k
  induction k with
  | zero => intro t b; rfl
  | succ m ih =>
    intro t b
    simp only [blitRows]
    rw [blitCols_eq_copyCols dset sget pal key t t hall, ih]
    rfl

/-- A full-overlap `blit` at `(0, 0)` whose remapped values never hit the
key is the plain nested copy loop. -/
theorem blit_full_copy (n m : Nat) (key : Int) (pal : Option (Int → Int))
    (sget : Nat → Nat → Int) (dset : Buf → Nat → Nat → Int → Buf) (b : Buf)
    (hall : ∀ j ys', palApp pal (sget j ys') ≠ key) :
    (blit n m n m 0 0 key pal sget dset b).1
      = copyRows dset (fun j s => palApp pal (sget j s)) n m 0 0 b := by
  by_cases hg : (n : Int) ≤ 0 ∨ (m : Int) ≤ 0 ∨ (n : Int) ≤ -0 ∨ (m : Int) ≤ -0
  · rw [blit, if_pos hg]
    have : n = 0 ∨ m = 0 := by omega
    rcases this with rfl | rfl
    · exact (copyRows_zero_width dset _ m 0 0 b).symm
    · rcases Nat.eq_zero_or_pos n with rfl | -
      · exact (copyRows_zero_width dset _ 0 0 0 b).symm
      · rfl
  · rw [blit, if_neg hg]
    have h1 : (max 0 (0 : Int)).toNat = 0 := rfl
    have h2 : (max 0 (-(0 : Int))).toNat = 0 := rfl
    have h3 : (min (n : Int) (0 + n)).toNat = n := by omega
    have h4 : (min (m : Int) (0 + m)).toNat = m := by omega
    rw [h1, h2, h3, h4]
    simpa using blitRows_eq_copyRows dset sget pal key n hall m 0 b

/-- `gs4` pixel values are nibbles. -/
theorem gs4Get_lt_16 (stride : Nat) (b : Buf) (x y : Nat)
    (hb : ∀ i, b i < 256) : gs4Get stride b x y < 16 := by
  unfold gs4Get
  split
  · have h : b ((x + y * stride) / 2) &&& 15 ≤ 15 := Nat.and_le_right
    omega
  · have h := hb ((x + y * stride) / 2)
    rw [Nat.shiftRight_eq_div_pow]
    omega

/-- `Transform1B._fb2raw`, per-pixel inner loop (`for x in range(...)`):
read through `pixel` (a `None` read is a crash, hence `none`), shift right
by 3, write through the output `pixel`. -/
def t1bCols (sW sH sStride : Nat) (src : Buf) (oW oH oStride : Nat)
    (σ : Nat → Nat → Int × Int) (y : Nat) : List Nat → Buf → Option Buf
  | [], b => some b
  | xx :: rest, b =>
    match pyPixelGet sW sH (gs4Get sStride) src (σ xx y).1 (σ xx y).2 with
    | none => none
    | some v =>
      t1bCols sW sH sStride src oW oH oStride σ y rest
        (pyPixelSet oW oH (mhlsbSet oStride) b xx y ((v >>> 3 : Nat) : Int))

/-- `Transform1B._fb2raw`, per-pixel outer loop (`for y in range(...)`). -/
def t1bRows (sW sH sStride : Nat) (src : Buf) (oW oH oStride : Nat)
    (σ : Nat → Nat → Int × Int) : Nat → Nat → Buf → Option Buf
  | 0, _, b => some b
  | k + 1, y, b =>
    match t1bCols sW sH sStride src oW oH oStride σ y (List.range oW) b with
    | none => none
    | some b2 => t1bRows sW sH sStride src oW oH oStride σ k (y + 1) b2

/-- The `b"\x00\xFF"` palette buffer of `Transform1B._fb2raw`. -/
def pal1BBuf : Buf := fun i => if i = 0 then 0x00 else if i = 1 then 0xFF else 0

/-- `Transform1B._fb2raw` over the abstract byte buffer.  `W`/`H` are
`self.width`/`self.height` (the user-facing, possibly transposed
dimensions); the raw output is a `MONO_HLSB` frame of `W × H` at 0° and of
the swapped `H × W` dimensions otherwise (the 180° branch swaps them too —
as in the source).  The 0° branch is the `blit` fast path with the
`b"\x00\xFF"` threshold palette; the palette lookup
`palette._getpixel(palette, col, 0)` is embedded with the non-negative
pixel value as the column index. -/
def fb2raw1B (W H : Nat) (rot : Nat) (src : Buf) : Option Buf :=
  let sStride := alignStride W 1
  if rot = 0 then
    some ((blit W H W H 0 0 (-1)
      (some (fun c => ((mhlsbGet 16 pal1BBuf c.toNat 0 : Nat) : Int)))
      (fun a b => ((gs4Get sStride src a b : Nat) : Int))
      (mhlsbSet (alignStride W 7)) zeroBuf).1)
  else if rot = 90 then
    t1bRows W H sStride src H W (alignStride H 7)
      (fun x y => ((y : Int), (H : Int) - 1 - x)) W 0 zeroBuf
  else if rot = 180 then
    t1bRows W H sStride src H W (alignStride H 7)
      (fun x y => ((W : Int) - 1 - x, (H : Int) - 1 - y)) W 0 zeroBuf
  else
    t1bRows W H sStride src H W (alignStride H 7)
      (fun x y => ((W : Int) - 1 - y, (x : Int))) W 0 zeroBuf

/-- When every remapped source coordinate is in bounds, the 1-bit per-pixel
column loop is the pure copy loop. -/
theorem t1bCols_eq (sW sH sStride : Nat) (src : Buf) (oW oH oStride : Nat)
    (σ : Nat → Nat → Int × Int) (y : Nat) (hy : y < oH) :
    ∀ (l : List Nat),
      (∀ x ∈ l, x < oW ∧ 0 ≤ (σ x y).1 ∧ (σ x y).1 < sW
        ∧ 0 ≤ (σ x y).2 ∧ (σ x y).2 < sH) →
      ∀ b, t1bCols sW sH sStride src oW oH oStride σ y l b
        = some (copyCols (mhlsbSet oStride)
            (fun j t => ((gs4Get sStride src (σ j t).1.toNat (σ j t).2.toNat
              >>> 3 : Nat) : Int)) y y l b) := by
  intro l
  induction l with
  | nil => intro _ b; rfl
  | cons xx rest ih =>
    intro hb b
    obtain ⟨hxx, h1, h2, h3, h4⟩ := hb xx (List.mem_cons_self xx rest)
    have hget : pyPixelGet sW sH (gs4Get sStride) src (σ xx y).1 (σ xx y).2
        = some (gs4Get sStride src (σ xx y).1.toNat (σ xx y).2.toNat) := by
      unfold pyPixelGet
      rw [if_pos ⟨h1, h2, h3, h4⟩]
    simp only [t1bCols, hget]
    rw [ih (fun x hx => hb x (List.mem_cons_of_mem xx hx))]
    simp only [copyCols]
    congr 1
    unfold pyPixelSet
    rw [if_pos ⟨hxx, hy⟩, if_neg (not_lt.mpr (Int.natCast_nonneg _))]

/-- Row-loop version of `t1bCols_eq`. -/
theorem t1bRows_eq (sW sH sStride : Nat) (src : Buf) (oW oH oStride : Nat)
    (σ : Nat → Nat → Int × Int)
    (hσ : ∀ x < oW, ∀ t < oH, 0 ≤ (σ x t).1 ∧ (σ x t).1 < sW
      ∧ 0 ≤ (σ x t).2 ∧ (σ x t).2 < sH) :
    ∀ (k y : Nat), y + k ≤ oH → ∀ b,
      t1bRows sW sH sStride src oW oH oStride σ k y b
        = some (copyRows (mhlsbSet oStride)
            (fun j t => ((gs4Get sStride src (σ j t).1.toNat (σ j t).2.toNat
              >>> 3 : Nat) : Int)) oW k y y b) := by
  intro k
  induction k with
  | zero => intro y _ b; rfl
  | succ m ih =>
    intro y hk b
    have hy : y < oH := by omega
    simp only [t1bRows]
    rw [t1bCols_eq sW sH sStride src oW oH oStride σ y hy (List.range oW)
      (fun x hx => ⟨List.mem_range.mp hx, hσ x (List.mem_range.mp hx) y hy⟩)]
    dsimp only
    rw [ih (y + 1) (by omega)]
    rfl

/-- Pointwise-equal value maps yield the same column pass. -/
theorem copyCols_congr (dset : Buf → Nat → Nat → Int → Buf)
    (f g : Nat → Nat → Int) (yd ys : Nat) :
    ∀ (l : List Nat), (∀ j ∈ l, f j ys = g j ys) →
      ∀ b, copyCols dset f yd ys l b = copyCols dset g yd ys l b := by
  intro l
  induction l with
  | nil => intro _ b; rfl
  | cons j rest ih =>
    intro hfg b
    simp only [copyCols]
    rw [hfg j (List.mem_cons_self j rest),
      ih (fun j' hj' => hfg j' (List.mem_cons_of_mem j hj'))]

/-- Pointwise-equal value maps yield the same copy loop. -/
theorem copyRows_congr (dset : Buf → Nat → Nat → Int → Buf)
    (f g : Nat → Nat → Int) (n : Nat) :
    ∀ (k yd ys : Nat), (∀ j < n, ∀ t, ys ≤ t → t < ys + k → f j t = g j t) →
      ∀ b, copyRows dset f n k yd ys b = copyRows dset g n k yd ys b := by
  intro k
  induction k with
  | zero => intro yd ys _ b; rfl
  | succ m ih =>
    intro yd ys hfg b
    simp only [copyRows]
    rw [copyCols_congr dset f g yd ys (List.range n)
      (fun j hj => hfg j (List.mem_range.mp hj) ys (by omega) (by omega))]
    exact ih (yd + 1) (ys + 1)
      (fun j hj t ht1 ht2 => hfg j hj t (by omega) (by omega)) _

/-- The `b"\x00\xFF"` palette realises the `>> 3` threshold on nibbles. -/
theorem pal1BBuf_threshold : ∀ c < 16, mhlsbGet 16 pal1BBuf c 0 = c >>> 3 := by
  decide

/-- A two-byte palette buffer (`bytearray(pal)` of
`Transform2B._fb2raw_com`). -/
def pal2Byte (b0 b1 : Nat) : Buf := fun i => if i = 0 then b0 else if i = 1 then b1 else 0

/-- `Transform2B._fb2raw_com`, per-pixel inner loop: one source read through
`pixel`, two palette reads through the palettes' `pixel`, two plane writes.
A `None` from any read crashes the following use, hence `none`. -/
def t2bCols (fbW fbH sStride : Nat) (src : Buf) (nw nh oStride : Nat)
    (pal1 pal2 : Buf) (σ : Nat → Nat → Int × Int) (y : Nat) :
    List Nat → Buf × Buf → Option (Buf × Buf)
  | [], bs => some bs
  | xx :: rest, bs =>
    (pyPixelGet fbW fbH (gs4Get sStride) src (σ xx y).1 (σ xx y).2).bind
      fun p => (pyPixelGet 16 1 (mhlsbGet 16) pal1 (p : Int) 0).bind
      fun pv1 => (pyPixelGet 16 1 (mhlsbGet 16) pal2 (p : Int) 0).bind
      fun pv2 =>
        t2bCols fbW fbH sStride src nw nh oStride pal1 pal2 σ y rest
          (pyPixelSet nw nh (mhlsbSet oStride) bs.1 xx y ((pv1 : Nat) : Int),
           pyPixelSet nw nh (mhlsbSet oStride) bs.2 xx y ((pv2 : Nat) : Int))

/-- `Transform2B._fb2raw_com`, per-pixel outer loop. -/
def t2bRows (fbW fbH sStride : Nat) (src : Buf) (nw nh oStride : Nat)
    (pal1 pal2 : Buf) (σ : Nat → Nat → Int × Int) :
    Nat → Nat → Buf × Buf → Option (Buf × Buf)
  | 0, _, bs => some bs
  | k + 1, y, bs =>
    match t2bCols fbW fbH sStride src nw nh oStride pal1 pal2 σ y
        (List.range nw) bs with
    | none => none
    | some bs2 =>
      t2bRows fbW fbH sStride src nw nh oStride pal1 pal2 σ k (y + 1) bs2

/-- `Transform2B._fb2raw_com` over the abstract byte buffers.  `nw`/`nh` are
the native panel dimensions `self._w`/`self._h`; the working buffer
`self._fb` has the user-facing dimensions (swapped for 90°/270°).  The two
half-planes of the `memoryview` are modelled as a pair of buffers.  The 0°
branch is the two `blit` fast paths through the 16×1 `MONO_HLSB` palette
frame buffers. -/
def fb2raw2B (nw nh : Nat) (rot : Nat) (p10 p11 p20 p21 : Nat) (src : Buf) :
    Option (Buf × Buf) :=
  let pal1 := pal2Byte p10 p11
  let pal2 := pal2Byte p20 p21
  if rot = 0 then
    some ((blit nw nh nw nh 0 0 (-1)
        (some (fun c => ((mhlsbGet 16 pal1 c.toNat 0 : Nat) : Int)))
        (fun a b => ((gs4Get (alignStride nw 1) src a b : Nat) : Int))
        (mhlsbSet (alignStride nw 7)) zeroBuf).1,
      (blit nw nh nw nh 0 0 (-1)
        (some (fun c => ((mhlsbGet 16 pal2 c.toNat 0 : Nat) : Int)))
        (fun a b => ((gs4Get (alignStride nw 1) src a b : Nat) : Int))
        (mhlsbSet (alignStride nw 7)) zeroBuf).1)
  else if rot = 90 then
    t2bRows nh nw (alignStride nh 1) src nw nh (alignStride nw 7) pal1 pal2
      (fun x y => ((nh : Int) - 1 - y, (x : Int))) nh 0 (zeroBuf, zeroBuf)
  else if rot = 180 then
    t2bRows nw nh (alignStride nw 1) src nw nh (alignStride nw 7) pal1 pal2
      (fun x y => ((nw : Int) - 1 - x, (nh : Int) - 1 - y)) nh 0
      (zeroBuf, zeroBuf)
  else
    t2bRows nh nw (alignStride nh 1) src nw nh (alignStride nw 7) pal1 pal2
      (fun x y => ((y : Int), (nw : Int) - 1 - x)) nh 0 (zeroBuf, zeroBuf)

set_option maxHeartbeats 1000000 in
/-- When the remapped source coordinates are in bounds and the source bytes
are valid, the dual-plane per-pixel column loop is a pair of pure copy
loops, one per plane. -/
theorem t2bCols_eq (fbW fbH sStride : Nat) (src : Buf) (nw nh oStride : Nat)
    (pal1 pal2 : Buf) (σ : Nat → Nat → Int × Int) (y : Nat) (hy : y < nh)
    (hb256 : ∀ i, src i < 256) :
    ∀ (l : List Nat),
      (∀ x ∈ l, x < nw ∧ 0 ≤ (σ x y).1 ∧ (σ x y).1 < fbW
        ∧ 0 ≤ (σ x y).2 ∧ (σ x y).2 < fbH) →
      ∀ bs, t2bCols fbW fbH sStride src nw nh oStride pal1 pal2 σ y l bs
        = some
          (copyCols (mhlsbSet oStride)
            (fun j t => ((mhlsbGet 16 pal1
              (gs4Get sStride src (σ j t).1.toNat (σ j t).2.toNat) 0 : Nat) : Int))
            y y l bs.1,
           copyCols (mhlsbSet oStride)
            (fun j t => ((mhlsbGet 16 pal2
              (gs4Get sStride src (σ j t).1.toNat (σ j t).2.toNat) 0 : Nat) : Int))
            y y l bs.2) := by
  intro l
  induction l with
  | nil => intro _ bs; rfl
  | cons xx rest ih =>
    intro hb bs
    obtain ⟨hxx, h1, h2, h3, h4⟩ := hb xx (List.mem_cons_self xx rest)
    have hget : pyPixelGet fbW fbH (gs4Get sStride) src (σ xx y).1 (σ xx y).2
        = some (gs4Get sStride src (σ xx y).1.toNat (σ xx y).2.toNat) := by
      unfold pyPixelGet
      rw [if_pos ⟨h1, h2, h3, h4⟩]
    have hp16 : gs4Get sStride src (σ xx y).1.toNat (σ xx y).2.toNat < 16 :=
      gs4Get_lt_16 sStride src _ _ hb256
    have hpal : ∀ pb : Buf,
        pyPixelGet 16 1 (mhlsbGet 16) pb
          ((gs4Get sStride src (σ xx y).1.toNat (σ xx y).2.toNat : Nat) : Int) 0
        = some (mhlsbGet 16 pb
            (gs4Get sStride src (σ xx y).1.toNat (σ xx y).2.toNat) 0) := by
      intro pb
      unfold pyPixelGet
      rw [if_pos ⟨Int.natCast_nonneg _, by exact_mod_cast hp16, le_refl 0,
        by norm_num⟩]
      rw [Int.toNat_natCast, Int.toNat_zero]
    rw [t2bCols, hget, Option.some_bind, hpal pal1, Option.some_bind,
      hpal pal2, Option.some_bind]
    rw [ih (fun x hx => hb x (List.mem_cons_of_mem xx hx))]
    simp only [copyCols]
    congr 2 <;>
    · unfold pyPixelSet
      rw [if_pos ⟨hxx, hy⟩, if_neg (not_lt.mpr (Int.natCast_nonneg _))]

/-- Row-loop version of `t2bCols_eq`. -/
theorem t2bRows_eq (fbW fbH sStride : Nat) (src : Buf) (nw nh oStride : Nat)
    (pal1 pal2 : Buf) (σ : Nat → Nat → Int × Int)
    (hb256 : ∀ i, src i < 256)
    (hσ : ∀ x < nw, ∀ t < nh, 0 ≤ (σ x t).1 ∧ (σ x t).1 < fbW
      ∧ 0 ≤ (σ x t).2 ∧ (σ x t).2 < fbH) :
    ∀ (k y : Nat), y + k ≤ nh → ∀ bs,
      t2bRows fbW fbH sStride src nw nh oStride pal1 pal2 σ k y bs
        = some
          (copyRows (mhlsbSet oStride)
            (fun j t => ((mhlsbGet 16 pal1
              (gs4Get sStride src (σ j t).1.toNat (σ j t).2.toNat) 0 : Nat) : Int))
            nw k y y bs.1,
           copyRows (mhlsbSet oStride)
            (fun j t => ((mhlsbGet 16 pal2
              (gs4Get sStride src (σ j t).1.toNat (σ j t).2.toNat) 0 : Nat) : Int))
            nw k y y bs.2) := by
  intro k
  induction k with
  | zero => intro y _ bs; rfl
  | succ m ih =>
    intro y hk bs
    have hy : y < nh := by omega
    simp only [t2bRows]
    rw [t2bCols_eq fbW fbH sStride src nw nh oStride pal1 pal2 σ y hy hb256
      (List.range nw)
      (fun x hx => ⟨List.mem_range.mp hx, hσ x (List.mem_range.mp hx) y hy⟩)]
    dsimp only
    rw [ih (y + 1) (by omega)]
    rfl

/-- The 0° fast path of `Transform1B._fb2raw` as a pure copy loop. -/
theorem fb2raw1B_zero (n m : Nat) (sT : Buf) :
    fb2raw1B n m 0 sT
      = some (copyRows (mhlsbSet (alignStride n 7))
          (fun j s => ((mhlsbGet 16 pal1BBuf
            (gs4Get (alignStride n 1) sT j s) 0 : Nat) : Int)) n m 0 0 zeroBuf) := by
  have hall : ∀ j ys',
      palApp (some (fun c => ((mhlsbGet 16 pal1BBuf c.toNat 0 : Nat) : Int)))
        ((fun a b => ((gs4Get (alignStride n 1) sT a b : Nat) : Int)) j ys')
        ≠ (-1 : Int) := by
    intro j ys'
    simp only [palApp]
    omega
  show some ((blit n m n m 0 0 (-1)
      (some (fun c => ((mhlsbGet 16 pal1BBuf c.toNat 0 : Nat) : Int)))
      (fun a b => ((gs4Get (alignStride n 1) sT a b : Nat) : Int))
      (mhlsbSet (alignStride n 7)) zeroBuf).1) = _
  rw [blit_full_copy n m (-1) _ _ _ zeroBuf hall]
  rfl

/-- The 0° fast path of `Transform2B._fb2raw_com` as a pair of pure copy
loops. -/
theorem fb2raw2B_zero (nw nh : Nat) (p10 p11 p20 p21 : Nat) (sT : Buf) :
    fb2raw2B nw nh 0 p10 p11 p20 p21 sT
      = some
        (copyRows (mhlsbSet (alignStride nw 7))
          (fun j s => ((mhlsbGet 16 (pal2Byte p10 p11)
            (gs4Get (alignStride nw 1) sT j s) 0 : Nat) : Int)) nw nh 0 0 zeroBuf,
         copyRows (mhlsbSet (alignStride nw 7))
          (fun j s => ((mhlsbGet 16 (pal2Byte p20 p21)
            (gs4Get (alignStride nw 1) sT j s) 0 : Nat) : Int)) nw nh 0 0 zeroBuf) := by
  have hall : ∀ pb : Buf, ∀ j ys',
      palApp (some (fun c => ((mhlsbGet 16 pb c.toNat 0 : Nat) : Int)))
        ((fun a b => ((gs4Get (alignStride nw 1) sT a b : Nat) : Int)) j ys')
        ≠ (-1 : Int) := by
    intro pb j ys'
    simp only [palApp]
    omega
  show some
      ((blit nw nh nw nh 0 0 (-1)
        (some (fun c => ((mhlsbGet 16 (pal2Byte p10 p11) c.toNat 0 : Nat) : Int)))
        (fun a b => ((gs4Get (alignStride nw 1) sT a b : Nat) : Int))
        (mhlsbSet (alignStride nw 7)) zeroBuf).1,
       (blit nw nh nw nh 0 0 (-1)
        (some (fun c => ((mhlsbGet 16 (pal2Byte p20 p21) c.toNat 0 : Nat) : Int)))
        (fun a b => ((gs4Get (alignStride nw 1) sT a b : Nat) : Int))
        (mhlsbSet (alignStride nw 7)) zeroBuf).1) = _
  rw [blit_full_copy nw nh (-1) _ _ _ zeroBuf (hall (pal2Byte p10 p11)),
    blit_full_copy nw nh (-1) _ _ _ zeroBuf (hall (pal2Byte p20 p21))]
  rfl

/-- The per-pixel 1-bit path with remapping `σ` equals the 0° fast path run
on any buffer whose pixels are the `σ`-transformed source pixels. -/
theorem t1b_path_eq (W H : Nat) (src srcT : Buf) (σ : Nat → Nat → Int × Int)
    (hbytes : ∀ i, src i < 256)
    (hσ : ∀ x < H, ∀ t < W, 0 ≤ (σ x t).1 ∧ (σ x t).1 < W
      ∧ 0 ≤ (σ x t).2 ∧ (σ x t).2 < H)
    (hT : ∀ x < H, ∀ t < W, gs4Get (alignStride H 1) srcT x t
      = gs4Get (alignStride W 1) src (σ x t).1.toNat (σ x t).2.toNat) :
    t1bRows W H (alignStride W 1) src H W (alignStride H 7) σ W 0 zeroBuf
      = fb2raw1B H W 0 srcT := by
  rw [t1bRows_eq W H (alignStride W 1) src H W (alignStride H 7) σ hσ W 0
    (by omega) zeroBuf]
  rw [fb2raw1B_zero H W srcT]
  congr 1
  apply copyRows_congr
  intro j hj t _ ht
  have hv : gs4Get (alignStride W 1) src (σ j t).1.toNat (σ j t).2.toNat < 16 :=
    gs4Get_lt_16 _ _ _ _ hbytes
  rw [hT j hj t (by omega), pal1BBuf_threshold _ hv]

/-- The per-pixel dual-plane path with remapping `σ` equals the 0° fast
path run on any buffer whose pixels are the `σ`-transformed source
pixels. -/
theorem t2b_path_eq (nw nh fbW fbH : Nat) (src srcT : Buf)
    (p10 p11 p20 p21 : Nat) (σ : Nat → Nat → Int × Int)
    (hbytes : ∀ i, src i < 256)
    (hσ : ∀ x < nw, ∀ t < nh, 0 ≤ (σ x t).1 ∧ (σ x t).1 < fbW
      ∧ 0 ≤ (σ x t).2 ∧ (σ x t).2 < fbH)
    (hT : ∀ x < nw, ∀ t < nh, gs4Get (alignStride nw 1) srcT x t
      = gs4Get (alignStride fbW 1) src (σ x t).1.toNat (σ x t).2.toNat) :
    t2bRows fbW fbH (alignStride fbW 1) src nw nh (alignStride nw 7)
        (pal2Byte p10 p11) (pal2Byte p20 p21) σ nh 0 (zeroBuf, zeroBuf)
      = fb2raw2B nw nh 0 p10 p11 p20 p21 srcT := by
  rw [t2bRows_eq fbW fbH (alignStride fbW 1) src nw nh (alignStride nw 7)
    (pal2Byte p10 p11) (pal2Byte p20 p21) σ hbytes hσ nh 0 (by omega)
    (zeroBuf, zeroBuf)]
  rw [fb2raw2B_zero nw nh p10 p11 p20 p21 srcT]
  congr 2 <;>
  · apply copyRows_congr
    intro j hj t _ ht
    rw [hT j hj t (by omega)]

/-- C1 (amended): each per-pixel rotation path produces output bit-identical
to the 0° fast path applied to the coordinate-remapped source, with output
width/height swapped, for: `Transform1B` at 90°/270° (any dimensions) and at
180° on square buffers — but `Transform1B`'s 180° branch reads out of bounds
(the run crashes) as soon as the buffer is non-square, shown here at 1×2 —
and `Transform2B` at 90°/180°/270° (any dimensions, both planes, any
palettes).  The remappings are those of the source: the two converters'
90° and 270° mappings are mutually swapped (see the counterexample), so
"the same rotation mapping for the same mode" does not hold. -/
theorem c1_rotation_amended :
    (∀ (W H : Nat) (src srcT : Buf), (∀ i, src i < 256) →
      (∀ x < H, ∀ y < W, gs4Get (alignStride H 1) srcT x y
          = gs4Get (alignStride W 1) src y (H - 1 - x)) →
      fb2raw1B W H 90 src = fb2raw1B H W 0 srcT)
    ∧ (∀ (W H : Nat) (src srcT : Buf), (∀ i, src i < 256) →
      (∀ x < H, ∀ y < W, gs4Get (alignStride H 1) srcT x y
          = gs4Get (alignStride W 1) src (W - 1 - y) x) →
      fb2raw1B W H 270 src = fb2raw1B H W 0 srcT)
    ∧ (∀ (n : Nat) (src srcT : Buf), (∀ i, src i < 256) →
      (∀ x < n, ∀ y < n, gs4Get (alignStride n 1) srcT x y
          = gs4Get (alignStride n 1) src (n - 1 - x) (n - 1 - y)) →
      fb2raw1B n n 180 src = fb2raw1B n n 0 srcT)
    ∧ fb2raw1B 1 2 180 zeroBuf = none
    ∧ (∀ (nw nh p10 p11 p20 p21 : Nat) (src srcT : Buf),
      (∀ i, src i < 256) →
      (∀ x < nw, ∀ y < nh, gs4Get (alignStride nw 1) srcT x y
          = gs4Get (alignStride nh 1) src (nh - 1 - y) x) →
      fb2raw2B nw nh 90 p10 p11 p20 p21 src
        = fb2raw2B nw nh 0 p10 p11 p20 p21 srcT)
    ∧ (∀ (nw nh p10 p11 p20 p21 : Nat) (src srcT : Buf),
      (∀ i, src i < 256) →
      (∀ x < nw, ∀ y < nh, gs4Get (alignStride nw 1) srcT x y
          = gs4Get (alignStride nw 1) src (nw - 1 - x) (nh - 1 - y)) →
      fb2raw2B nw nh 180 p10 p11 p20 p21 src
        = fb2raw2B nw nh 0 p10 p11 p20 p21 srcT)
    ∧ (∀ (nw nh p10 p11 p20 p21 : Nat) (src srcT : Buf),
      (∀ i, src i < 256) →
      (∀ x < nw, ∀ y < nh, gs4Get (alignStride nw 1) srcT x y
          = gs4Get (alignStride nh 1) src y (nw - 1 - x)) →
      fb2raw2B nw nh 270 p10 p11 p20 p21 src
        = fb2raw2B nw nh 0 p10 p11 p20 p21 srcT) := by
  refine ⟨?_, ?_, ?_, ?_, ?_, ?_, ?_⟩
  · intro W H src srcT hb hT
    refine t1b_path_eq W H src srcT (fun x y => ((y : Int), (H : Int) - 1 - x))
      hb ?_ ?_
    · intro x hx t ht
      dsimp only
      omega
    · intro x hx t ht
      dsimp only
      have e1 : ((t : Nat) : Int).toNat = t := by omega
      have e2 : ((H : Int) - 1 - (x : Nat)).toNat = H - 1 - x := by omega
      rw [e1, e2]
      exact hT x hx t ht
  · intro W H src srcT hb hT
    refine t1b_path_eq W H src srcT
      (fun x y => ((W : Int) - 1 - y, (x : Int))) hb ?_ ?_
    · intro x hx t ht
      dsimp only
      omega
    · intro x hx t ht
      dsimp only
      have e1 : ((W : Int) - 1 - (t : Nat)).toNat = W - 1 - t := by omega
      have e2 : ((x : Nat) : Int).toNat = x := by omega
      rw [e1, e2]
      exact hT x hx t ht
  · intro n src srcT hb hT
    refine t1b_path_eq n n src srcT
      (fun x y => ((n : Int) - 1 - x, (n : Int) - 1 - y)) hb ?_ ?_
    · intro x hx t ht
      dsimp only
      omega
    · intro x hx t ht
      dsimp only
      have e1 : ((n : Int) - 1 - (x : Nat)).toNat = n - 1 - x := by omega
      have e2 : ((n : Int) - 1 - (t : Nat)).toNat = n - 1 - t := by omega
      rw [e1, e2]
      exact hT x hx t ht
  · rfl
  · intro nw nh p10 p11 p20 p21 src srcT hb hT
    refine t2b_path_eq nw nh nh nw src srcT p10 p11 p20 p21
      (fun x y => ((nh : Int) - 1 - y, (x : Int))) hb ?_ ?_
    · intro x hx t ht
      dsimp only
      omega
    · intro x hx t ht
      dsimp only
      have e1 : ((nh : Int) - 1 - (t : Nat)).toNat = nh - 1 - t := by omega
      have e2 : ((x : Nat) : Int).toNat = x := by omega
      rw [e1, e2]
      exact hT x hx t ht
  · intro nw nh p10 p11 p20 p21 src srcT hb hT
    refine t2b_path_eq nw nh nw nh src srcT p10 p11 p20 p21
      (fun x y => ((nw : Int) - 1 - x, (nh : Int) - 1 - y)) hb ?_ ?_
    · intro x hx t ht
      dsimp only
      omega
    · intro x hx t ht
      dsimp only
      have e1 : ((nw : Int) - 1 - (x : Nat)).toNat = nw - 1 - x := by omega
      have e2 : ((nh : Int) - 1 - (t : Nat)).toNat = nh - 1 - t := by omega
      rw [e1, e2]
      exact hT x hx t ht
  · intro nw nh p10 p11 p20 p21 src srcT hb hT
    refine t2b_path_eq nw nh nh nw src srcT p10 p11 p20 p21
      (fun x y => ((y : Int), (nw : Int) - 1 - x)) hb ?_ ?_
    · intro x hx t ht
      dsimp only
      omega
    · intro x hx t ht
      dsimp only
      have e1 : ((t : Nat) : Int).toNat = t := by omega
      have e2 : ((nw : Int) - 1 - (x : Nat)).toNat = nw - 1 - x := by omega
      rw [e1, e2]
      exact hT x hx t ht

/-- A concrete 2×2 `GS4_HMSB` source with a single lit pixel at `(0, 0)`. -/
def cSrc : Buf := fun i => if i = 0 then 240 else 0

/-- `cSrc` rotated by the `Transform1B` 90° mapping. -/
def cSrcA : Buf := fun i => if i = 0 then 15 else 0

/-- `cSrc` rotated by the `Transform1B` 270° mapping. -/
def cSrcB : Buf := fun i => if i = 1 then 240 else 0

/-- `cSrc` rotated by the shared 180° mapping. -/
def cSrcC : Buf := fun i => if i = 1 then 15 else 0

theorem cSrc_bytes : ∀ i, cSrc i < 256 := by
  intro i
  unfold cSrc
  split <;> norm_num

/-- Witness for `c1_rotation_amended`: all six equivalences at concrete 2×2
sources. -/
theorem c1_rotation_amended_witness :
    fb2raw1B 2 2 90 cSrc = fb2raw1B 2 2 0 cSrcA
    ∧ fb2raw1B 2 2 270 cSrc = fb2raw1B 2 2 0 cSrcB
    ∧ fb2raw1B 2 2 180 cSrc = fb2raw1B 2 2 0 cSrcC
    ∧ fb2raw2B 2 2 90 0 255 15 15 cSrc = fb2raw2B 2 2 0 0 255 15 15 cSrcB
    ∧ fb2raw2B 2 2 180 0 255 15 15 cSrc = fb2raw2B 2 2 0 0 255 15 15 cSrcC
    ∧ fb2raw2B 2 2 270 0 255 15 15 cSrc = fb2raw2B 2 2 0 0 255 15 15 cSrcA :=
  ⟨c1_rotation_amended.1 2 2 cSrc cSrcA cSrc_bytes (by decide),
   c1_rotation_amended.2.1 2 2 cSrc cSrcB cSrc_bytes (by decide),
   c1_rotation_amended.2.2.1 2 cSrc cSrcC cSrc_bytes (by decide),
   c1_rotation_amended.2.2.2.2.1 2 2 0 255 15 15 cSrc cSrcB cSrc_bytes
     (by decide),
   c1_rotation_amended.2.2.2.2.2.1 2 2 0 255 15 15 cSrc cSrcC cSrc_bytes
     (by decide),
   c1_rotation_amended.2.2.2.2.2.2 2 2 0 255 15 15 cSrc cSrcA cSrc_bytes
     (by decide)⟩

/-- C1 counterexample: the single- and dual-plane converters do *not* apply
the same rotation mapping for the same mode.  On the same 2×2 source, with
the dual-plane first palette `b"\x00\xFF"` (whose lookup equals the
single-plane `>> 3` threshold), mode 90° puts the lit pixel's bit in byte 0
(value 64, pixel `(1, 0)`) for `Transform1B` but in byte 1 (value 128,
pixel `(0, 1)`) for `Transform2B`'s first plane: the two 90° mappings are
mutually inverse rotations, so the raw plane bytes differ. -/
theorem c1_counterexample :
    (fb2raw1B 2 2 90 cSrc).map (fun b => b 0) = some 64
    ∧ (fb2raw2B 2 2 90 0 255 0 0 cSrc).map (fun pr => pr.1 0) = some 0
    ∧ (fb2raw2B 2 2 90 0 255 0 0 cSrc).map (fun pr => pr.1 1) = some 128 := by
  refine ⟨?_, ?_, ?_⟩ <;> decide

end UEink
